import Mathlib

/-!
Verification of the suroi server core against its natural-language
specification.  The definitions below are shallow embeddings of the
TypeScript sources:

* `SuroiBitStream` and its helpers embed
  `src/common/src/utils/suroiBitStream.ts` (the underlying `BitStream`
  from the bit-buffer dependency is modelled as a growing list of bits
  with an independent read cursor; JavaScript numbers are idealized as
  elements of a linear ordered field, instantiated at `ℚ` or `ℝ` in the
  theorems; the truncation performed by JavaScript bitwise operations is
  modelled by `jsTrunc`).
* The dirty-set projection, collision filter, damage routine, visibility
  update, static visibility precomputation, and gas state machine embed
  the corresponding parts of `src/server/src/game.ts`,
  `src/server/src/objects/player.ts` and the map generation file.
-/

/-! ## Bit-level stream model -/

/-- Little-endian bit encoding of a natural number into `n` bits
(the value is reduced modulo `2^n`, matching the masking performed by
the underlying bit-buffer when writing `n` bits). -/
def toBitsLE : ℕ → ℕ → List Bool
  | 0, _ => []
  | n + 1, v => (v % 2 = 1) :: toBitsLE n (v / 2)

/-- Decode a little-endian list of bits into a natural number. -/
def fromBitsLE : List Bool → ℕ :=
  List.foldr (fun b acc => (if b then 1 else 0) + 2 * acc) 0

/-- The bit stream: a byte buffer with independent read and write
cursors, modelled as the list of bits written so far plus a read index.
`SuroiBitStream.alloc` in the source allocates a fixed-capacity buffer;
capacity/overflow behaviour is out of scope of the claims treated here. -/
structure SuroiBitStream where
  data : List Bool
  readIndex : ℕ
  deriving Repr, DecidableEq

/-- Allocation of a fresh stream (`SuroiBitStream.alloc`). -/
def SuroiBitStream.alloc (_length : ℕ) : SuroiBitStream :=
  ⟨[], 0⟩

/-- JavaScript bitwise truncation (`ToInt32` rounds toward zero). -/
def jsTrunc {K : Type} [LinearOrderedField K] [FloorRing K] (v : K) : ℤ :=
  if 0 ≤ v then ⌊v⌋ else -⌊-v⌋

/-- `writeBits(value, n)`: append the low `n` bits of the value
(two's-complement masking, as performed by the bit-buffer). -/
def SuroiBitStream.writeBits (s : SuroiBitStream) (value : ℤ) (n : ℕ) : SuroiBitStream :=
  ⟨s.data ++ toBitsLE n (value % ((2:ℤ) ^ n)).toNat, s.readIndex⟩

/-- `readBits(n)`: read `n` bits at the read cursor and advance it. -/
def SuroiBitStream.readBits (s : SuroiBitStream) (n : ℕ) : ℕ × SuroiBitStream :=
  (fromBitsLE ((s.data.drop s.readIndex).take n), ⟨s.data, s.readIndex + n⟩)

/-- `readBoolean()` -/
def SuroiBitStream.readBoolean (s : SuroiBitStream) : Bool × SuroiBitStream :=
  let r := s.readBits 1
  (r.1 ≠ 0, r.2)

/-- A stream whose read cursor sits exactly at its write cursor
(as after allocating a fresh stream and writing to it). -/
def SuroiBitStream.aligned (s : SuroiBitStream) : Prop :=
  s.readIndex = s.data.length

/-! ## Typed codec helpers (suroiBitStream.ts) -/

/-- Two-dimensional vector with the field layout of the source's
`Vector` type (common/src/utils/vector.ts). -/
structure Vec2 (K : Type) where
  x : K
  y : K
  deriving Repr, DecidableEq

section Codec

variable {K : Type} [LinearOrderedField K] [FloorRing K]

/-- Embedding of `writeFloat(value, min, max, bitCount)`: clamp the value
to the interval, map linearly onto `[0, 2^bitCount - 1]`, add `0.5` and
truncate (JavaScript bitwise truncation inside `writeBits`). -/
def SuroiBitStream.writeFloat (s : SuroiBitStream) (value mn mx : K) (bitCount : ℕ) :
    SuroiBitStream :=
  let range : ℕ := 2 ^ bitCount - 1
  let clamped : K := if value < mx then (if value > mn then value else mn) else mx
  s.writeBits (jsTrunc ((clamped - mn) / (mx - mn) * (range : K) + 1/2)) bitCount

/-- Embedding of `readFloat(min, max, bitCount)`: the inverse linear
mapping applied to the bits read. -/
def SuroiBitStream.readFloat (s : SuroiBitStream) (mn mx : K) (bitCount : ℕ) :
    K × SuroiBitStream :=
  let range : ℕ := 2 ^ bitCount - 1
  let r := s.readBits bitCount
  (mn + (mx - mn) * (r.1 : K) / (range : K), r.2)

/-- The quantized value produced by `writeFloat` (written to the stream
as `bitCount` bits). -/
def quantizeFloat (value mn mx : K) (bitCount : ℕ) : ℤ :=
  let range : ℕ := 2 ^ bitCount - 1
  let clamped : K := if value < mx then (if value > mn then value else mn) else mx
  jsTrunc ((clamped - mn) / (mx - mn) * (range : K) + 1/2)

/-- The value recovered by `readFloat` from a quantized word. -/
def dequantizeFloat (mn mx : K) (bitCount : ℕ) (v : ℕ) : K :=
  let range : ℕ := 2 ^ bitCount - 1
  mn + (mx - mn) * (v : K) / (range : K)

/-- Embedding of `writeVector2`. -/
def SuroiBitStream.writeVector2 (s : SuroiBitStream) (x y mnX mnY mxX mxY : K)
    (bitCount : ℕ) : SuroiBitStream :=
  (s.writeFloat x mnX mxX bitCount).writeFloat y mnY mxY bitCount

/-- Embedding of `writeVector`. -/
def SuroiBitStream.writeVector (s : SuroiBitStream) (vector : Vec2 K)
    (mnX mnY mxX mxY : K) (bitCount : ℕ) : SuroiBitStream :=
  s.writeVector2 vector.x vector.y mnX mnY mxX mxY bitCount

/-- Embedding of `readVector`. -/
def SuroiBitStream.readVector (s : SuroiBitStream) (mnX mnY mxX mxY : K)
    (bitCount : ℕ) : Vec2 K × SuroiBitStream :=
  let rx := s.readFloat mnX mxX bitCount
  let ry := rx.2.readFloat mnY mxY bitCount
  (⟨rx.1, ry.1⟩, ry.2)

/-- Embedding of `writePosition2`: game world bounds `[0,1024]`, 16 bits
per axis, with the Y axis inverted (`720 - y`) before encoding. -/
def SuroiBitStream.writePosition2 (s : SuroiBitStream) (x y : K) : SuroiBitStream :=
  s.writeVector2 x (720 - y) 0 0 1024 1024 16

/-- Embedding of `writePosition`. -/
def SuroiBitStream.writePosition (s : SuroiBitStream) (vector : Vec2 K) : SuroiBitStream :=
  s.writePosition2 vector.x vector.y

/-- Embedding of `readPosition`: reads the two 16-bit floats back with
the same bounds; it does not undo the Y inversion. -/
def SuroiBitStream.readPosition (s : SuroiBitStream) : Vec2 K × SuroiBitStream :=
  s.readVector 0 0 1024 1024 16

end Codec

/-- Embedding of `writeRotation`: a float over the fixed bounds
`[-π, π]`. -/
noncomputable def SuroiBitStream.writeRotation (s : SuroiBitStream) (value : ℝ) (bitCount : ℕ) :
    SuroiBitStream :=
  s.writeFloat value (-Real.pi) Real.pi bitCount

/-- Embedding of `readRotation`. -/
noncomputable def SuroiBitStream.readRotation (s : SuroiBitStream) (bitCount : ℕ) : ℝ × SuroiBitStream :=
  s.readFloat (-Real.pi) Real.pi bitCount

/-- Obstacle rotation modes, as carried by static obstacle definitions. -/
inductive RotationMode where
  | full
  | limited
  | binary
  | nothing
  deriving Repr, DecidableEq

/-- Modelled from the spec: `normalizeAngle` (common/src/utils/math.ts is
not part of the provided sources).  It reduces an angle modulo `2π` into
the interval `(-π, π]`, which is the behaviour of
`Math.atan2(Math.sin(angle), Math.cos(angle))` described by the spec's
rotation contract (rotation mapped to `[-π, π]`). -/
noncomputable def normalizeAngle (angle : ℝ) : ℝ :=
  angle - 2 * Real.pi * ⌈angle / (2 * Real.pi) - 1/2⌉

/-- Embedding of `writeObstacleRotation`: mode `full` writes a 4-bit
quantized rotation, `limited` writes the 2-bit orientation index,
`binary` writes a single bit, any other mode writes nothing. -/
noncomputable def SuroiBitStream.writeObstacleRotation (s : SuroiBitStream) (value : ℝ)
    (mode : RotationMode) : SuroiBitStream :=
  match mode with
  | .full => SuroiBitStream.writeRotation s value 4
  | .limited => s.writeBits (jsTrunc value) 2
  | .binary => s.writeBits (jsTrunc value) 1
  | .nothing => s

/-- Embedding of `readObstacleRotation`: mode `full` reads a 4-bit
rotation, `limited` turns the 2-bit index into a normalized angle,
`binary` reads one bit and returns `π/2` or `0`; other modes return 0. -/
noncomputable def SuroiBitStream.readObstacleRotation (s : SuroiBitStream) (mode : RotationMode) :
    ℝ × SuroiBitStream :=
  match mode with
  | .full => SuroiBitStream.readRotation s 4
  | .limited =>
    let r := s.readBits 2
    (normalizeAngle ((r.1 : ℝ) * (Real.pi / 2)), r.2)
  | .binary =>
    let r := s.readBoolean
    (if r.1 then Real.pi / 2 else 0, r.2)
  | .nothing => (0, s)


/-! ## Dirty-set projection (Game.tick, second player loop) -/

/-- Embedding of the per-player dirty-set projection performed by
`Game.tick`: each global dirty set is filtered through the player's
visible set and unioned into the player's own set.  The partial filter
additionally excludes objects already placed in the player's (just
updated) full set, and the deleted filter excludes the player object
itself (`object !== player`).  Objects are identified by their ids. -/
def projectDirtySets (visible pFull0 pPartial0 pDeleted0 gFull gPartial gDeleted : Finset ℕ)
    (playerId : ℕ) : Finset ℕ × Finset ℕ × Finset ℕ :=
  let pFull := pFull0 ∪ gFull.filter (fun o => o ∈ visible)
  let pPartial := pPartial0 ∪ gPartial.filter (fun o => o ∈ visible ∧ o ∉ pFull)
  let pDeleted := pDeleted0 ∪ gDeleted.filter (fun o => o ∈ visible ∧ o ≠ playerId)
  (pFull, pPartial, pDeleted)

/-! ## Collision filtering (Game constructor) -/

/-- Capability flag record (`CollisionFilter` in types/gameObject.ts). -/
structure CollisionFilter where
  player : Bool
  obstacle : Bool
  bullet : Bool
  loot : Bool
  deriving Repr, DecidableEq

/-- Physics fixture user data: the owning object's `is` and
`collidesWith` flag sets. -/
structure FixtureUserData where
  is : CollisionFilter
  collidesWith : CollisionFilter
  deriving Repr, DecidableEq

/-- Embedding of the `Fixture.prototype.shouldCollide` override
installed by the `Game` constructor. -/
def shouldCollide (thisObject thatObject : FixtureUserData) : Bool :=
  if thisObject.is.player then thatObject.collidesWith.player
  else if thisObject.is.obstacle then thatObject.collidesWith.obstacle
  else if thisObject.is.bullet then thatObject.collidesWith.bullet
  else if thisObject.is.loot then thatObject.collidesWith.loot
  else false

/-- The four object kinds appearing in the collision filter. -/
inductive ObjectKind where
  | player
  | obstacle
  | bullet
  | loot
  deriving Repr, DecidableEq

instance : Fintype ObjectKind :=
  ⟨⟨{ObjectKind.player, ObjectKind.obstacle, ObjectKind.bullet, ObjectKind.loot}, by decide⟩,
    by intro k; cases k <;> decide⟩

/-- Look up the flag of a given kind in a `CollisionFilter`. -/
def CollisionFilter.flag (f : CollisionFilter) : ObjectKind → Bool
  | .player => f.player
  | .obstacle => f.obstacle
  | .bullet => f.bullet
  | .loot => f.loot

/-- A fixture user datum whose `is` record asserts at most one kind
(true of every object in the game). -/
def FixtureUserData.atMostOneKind (a : FixtureUserData) : Prop :=
  ∀ k k' : ObjectKind, a.is.flag k = true → a.is.flag k' = true → k = k'

instance (a : FixtureUserData) : Decidable a.atMostOneKind := by
  unfold FixtureUserData.atMostOneKind
  infer_instance

/-- Player fixture flags (objects/player.ts). -/
def playerUserData : FixtureUserData :=
  ⟨⟨true, false, false, false⟩, ⟨false, true, true, false⟩⟩

/-- Obstacle fixture flags, as installed by `Game.createWorldBoundary`
(obstacle objects use the same flag matrix). -/
def obstacleUserData : FixtureUserData :=
  ⟨⟨false, true, false, false⟩, ⟨true, false, true, true⟩⟩

/-- Modelled from the spec: bullet fixture flags (objects/bullet.ts is
not among the provided sources).  Per the documented collision contract,
bullets collide with players and obstacles but not with other bullets
or loot. -/
def bulletUserData : FixtureUserData :=
  ⟨⟨false, false, true, false⟩, ⟨true, true, false, false⟩⟩

/-- Modelled from the spec: loot fixture flags (objects/loot.ts is not
among the provided sources).  Per the documented collision contract,
loot collides only with obstacles and other loot. -/
def lootUserData : FixtureUserData :=
  ⟨⟨false, false, false, true⟩, ⟨false, true, false, true⟩⟩

/-! ## Player damage (objects/player.ts) -/

/-- The player state read and written by `Player.damage` through the
health/death path. -/
structure PlayerHealthState (K : Type) where
  health : K
  dead : Bool
  invulnerable : Bool
  deriving Repr, DecidableEq

section Damage

variable {K : Type} [LinearOrderedField K]

/-- First reassignment of `amount` in `Player.damage`
(`if (this.health - amount > 100) amount = -(100 - this.health)`). -/
def Player.damageAmount1 (s : PlayerHealthState K) (amount : K) : K :=
  if s.health - amount > 100 then -(100 - s.health) else amount

/-- Second reassignment of `amount`
(`if (this.health - amount <= 0) amount = this.health`, applied to the
already adjusted amount). -/
def Player.damageAmount2 (s : PlayerHealthState K) (amount : K) : K :=
  if s.health - Player.damageAmount1 s amount ≤ 0 then s.health
  else Player.damageAmount1 s amount

/-- Third reassignment of `amount` (`if (this.dead) amount = 0`). -/
def Player.damageAmount (s : PlayerHealthState K) (amount : K) : K :=
  if s.dead then 0 else Player.damageAmount2 s amount

/-- Embedding of `Player.damage(amount, source, weapon)` restricted to
the health and death fields: invulnerable players return unchanged; the
three sequential reassignments of `amount` are the `damageAmount*`
helpers above; the `health` setter additionally clamps values above
100; the death branch (health at most 0 while not yet dead) zeroes
health and sets the dead flag.  The returned boolean tells whether the
death sequence fired on this call; the kill attribution, loot drops,
death marker and game-over side effects of that branch do not feed back
into these fields. -/
def Player.damage (s : PlayerHealthState K) (amount : K) : PlayerHealthState K × Bool :=
  if s.invulnerable then (s, false)
  else
    let amt := Player.damageAmount s amount
    let h2 := if s.health - amt > 100 then (100:K) else s.health - amt
    if h2 ≤ 0 ∧ s.dead = false then
      ({ health := 0, dead := true, invulnerable := s.invulnerable }, true)
    else
      ({ s with health := h2 }, false)

/-- Sequential application of `Player.damage`, counting how many calls
fired the death sequence. -/
def Player.damageSeq (s : PlayerHealthState K) : List K → PlayerHealthState K × ℕ
  | [] => (s, 0)
  | a :: rest =>
    let r := Player.damage s a
    let r2 := Player.damageSeq r.1 rest
    (r2.1, (if r.2 then 1 else 0) + r2.2)

end Damage

/-! ## Visibility update (Player.updateVisibleObjects) -/

/-- The world state read and mutated by `Player.updateVisibleObjects`:
the visible and full-dirty sets of every player (indexed by object id)
and the per-player deleted sets. -/
structure VisState where
  visible : ℕ → Finset ℕ
  fullDirty : ℕ → Finset ℕ
  deleted : ℕ → Finset ℕ

/-- Static context of one `updateVisibleObjects` call: the updating
player's id, dead flag, position and cull distances, and the positions
and player-kind flags of all objects. -/
structure VisCtx where
  thisId : ℕ
  dead : Bool
  posX : ℚ
  posY : ℚ
  xCullDist : ℚ
  yCullDist : ℚ
  isPlayer : ℕ → Bool
  objX : ℕ → ℚ
  objY : ℕ → ℚ

/-- Strict cull-window test of the dynamic-object loop
(coordinates strictly between `min` and `max`). -/
def VisCtx.inWindow (c : VisCtx) (o : ℕ) : Prop :=
  c.posX - c.xCullDist < c.objX o ∧ c.objX o < c.posX + c.xCullDist ∧
  c.posY - c.yCullDist < c.objY o ∧ c.objY o < c.posY + c.yCullDist

instance (c : VisCtx) (o : ℕ) : Decidable (c.inWindow o) := by
  unfold VisCtx.inWindow
  infer_instance

/-- One iteration of the loop over `game.dynamicObjects`: objects inside
the window join the new visible set, are marked full-dirty for this
player when newly seen, and — when the object is a player not yet seeing
this (living) player — this player is pushed into that player's visible
and full-dirty sets; objects outside the window that were visible are
marked deleted. -/
def visDynStep (c : VisCtx) (st : VisState × Finset ℕ) (o : ℕ) : VisState × Finset ℕ :=
  let w := st.1
  let newVis := st.2
  if c.inWindow o then
    let newVis2 := insert o newVis
    let w2 :=
      if o ∉ w.visible c.thisId then
        { w with fullDirty :=
            Function.update w.fullDirty c.thisId (insert o (w.fullDirty c.thisId)) }
      else w
    let w3 :=
      if c.dead = false ∧ c.isPlayer o = true ∧ c.thisId ∉ w2.visible o then
        { w2 with
            visible := Function.update w2.visible o (insert c.thisId (w2.visible o)),
            fullDirty := Function.update w2.fullDirty o (insert c.thisId (w2.fullDirty o)) }
      else w2
    (w3, newVis2)
  else if o ∈ w.visible c.thisId then
    ({ w with deleted :=
        Function.update w.deleted c.thisId (insert o (w.deleted c.thisId)) }, newVis)
  else (w, newVis)

/-- Embedding of `Player.updateVisibleObjects`.  The precomputed static
set for the player's snapped cell and zoom level is passed in as
`staticBase` (`game.visibleObjects[zoom][x][y]`; see
`visibleObjectsForCell` for how those sets are computed at map
generation).  Bookkeeping that never affects the visibility sets
(`movesSinceLastUpdate`, `nearObjects`) is omitted. -/
def updateVisibleObjects (c : VisCtx) (dynamicObjects : List ℕ) (staticBase : Finset ℕ)
    (w : VisState) : VisState :=
  let r := dynamicObjects.foldl (visDynStep c) (w, staticBase)
  let w1 := r.1
  let newVis := r.2
  let full2 := w1.fullDirty c.thisId ∪ newVis.filter (fun o => o ∉ w1.visible c.thisId)
  let w2 := { w1 with fullDirty := Function.update w1.fullDirty c.thisId full2 }
  let del3 := w2.deleted c.thisId ∪ (w2.visible c.thisId).filter (fun o => o ∉ newVis)
  let w3 := { w2 with deleted := Function.update w2.deleted c.thisId del3 }
  { w3 with visible := Function.update w3.visible c.thisId newVis }

/-! ## Static visibility precomputation (Map constructor) -/

/-- The zoom levels supported by the precomputation. -/
def supportedZoomLevels : List ℚ := [48, 96]

/-- Embedding of the per-cell static visibility precomputation in the
`Map` constructor: the static objects (given by their positions) whose
position lies strictly inside the asymmetric window around the cell
centre, with half-width `zoomLevel * 1.75` and half-height
`zoomLevel * 1.35`. -/
def visibleObjectsForCell (staticObjects : List (ℚ × ℚ)) (zoomLevel cellX cellY : ℚ) :
    List (ℚ × ℚ) :=
  let xCullDist := zoomLevel * 1.75
  let yCullDist := zoomLevel * 1.35
  let minX := cellX - xCullDist
  let minY := cellY - yCullDist
  let maxX := cellX + xCullDist
  let maxY := cellY + yCullDist
  staticObjects.filter (fun p =>
    decide (p.1 > minX ∧ p.1 < maxX ∧ p.2 > minY ∧ p.2 < maxY))

/-- The precomputed grid: cell indices run over the 10-unit grid and the
cell centre is `(x*10, y*10)`. -/
def visibleObjectsGrid (staticObjects : List (ℚ × ℚ)) (zoomLevel : ℚ) (x y : ℕ) :
    List (ℚ × ℚ) :=
  visibleObjectsForCell staticObjects zoomLevel (10 * x) (10 * y)

/-! ## Gas state machine (Game.advanceGas / Game.tick) -/

/-- Gas stage states (`GasState` in constants). -/
inductive GasState where
  | Inactive
  | Waiting
  | Advancing
  deriving Repr, DecidableEq

/-- Modelled from the spec: one entry of the `GasStages` table
(server/src/data/gasStages.ts is not among the provided sources). -/
structure GasStage where
  state : GasState
  duration : ℚ
  oldRadius : ℚ
  newRadius : ℚ
  dps : ℚ
  deriving Repr, DecidableEq

/-- Modelled from the spec: the `GasStages` table — a shrinking-circle
schedule alternating waiting and advancing stages with non-increasing
radii, ending at radius zero (stage 0 is the inactive initial entry;
`advanceGas` reads `GasStages[stage + 1]`). -/
def GasStages : List GasStage :=
  [ ⟨.Inactive, 0, 512, 512, 0⟩,
    ⟨.Waiting, 80, 512, 256, 1/2⟩,
    ⟨.Advancing, 30, 512, 256, 1⟩,
    ⟨.Waiting, 60, 256, 128, 3/2⟩,
    ⟨.Advancing, 20, 256, 128, 2⟩,
    ⟨.Waiting, 40, 128, 64, 5/2⟩,
    ⟨.Advancing, 15, 128, 64, 3⟩,
    ⟨.Waiting, 30, 64, 0, 7/2⟩,
    ⟨.Advancing, 10, 64, 0, 4⟩ ]

/-- The gas record held on `Game` (the tick-counter used to throttle gas
damage to one application per second is modelled by the `damageTick`
flag of `Game.gasTick`). -/
structure Gas where
  stage : ℕ
  state : GasState
  initialDuration : ℚ
  countdownStart : ℚ
  percentage : ℚ
  oldPosition : Vec2 ℚ
  newPosition : Vec2 ℚ
  currentPosition : Vec2 ℚ
  oldRadius : ℚ
  newRadius : ℚ
  currentRadius : ℚ
  dps : ℚ
  deriving Repr, DecidableEq

/-- The initial gas record built in the `Game` constructor. -/
def initialGas : Gas where
  stage := 0
  state := .Inactive
  initialDuration := 0
  countdownStart := 0
  percentage := 0
  oldPosition := ⟨360, 360⟩
  newPosition := ⟨360, 360⟩
  currentPosition := ⟨360, 360⟩
  oldRadius := 512
  newRadius := 512
  currentRadius := 512
  dps := 0

/-- Embedding of `lerp` (utils/misc.ts). -/
def lerp (start finish percentage : ℚ) : ℚ :=
  start * (1 - percentage) + finish * percentage

/-- Embedding of `vecLerp` (utils/misc.ts). -/
def vecLerp (start finish : Vec2 ℚ) (percentage : ℚ) : Vec2 ℚ :=
  ⟨lerp start.x finish.x percentage, lerp start.y finish.y percentage⟩

/-- Modelled from the spec: squared Euclidean distance
(common/src/utils/math.ts is not among the provided sources). -/
def distanceSquared (a b : Vec2 ℚ) : ℚ :=
  (a.x - b.x) ^ 2 + (a.y - b.y) ^ 2

/-- Embedding of `Game.isInGas`: the squared distance to the gas centre
is compared against the squared current radius with `>=`. -/
def Game.isInGas (gas : Gas) (position : Vec2 ℚ) : Bool :=
  decide (distanceSquared position gas.currentPosition ≥ gas.currentRadius ^ 2)

/-- Embedding of `Game.advanceGas` with gas mode `Normal` (the debug
duration override is config, not among the provided sources).  The
random point chosen for a waiting stage's new circle is supplied by the
caller as `rnd`, and `now` is the tick clock value used for
`countdownStart`.  Scheduling of the next call is exercised through the
event traces of `Game.gasRunT`. -/
def Game.advanceGas (gas : Gas) (now : ℚ) (rnd : Vec2 ℚ) : Gas :=
  match GasStages.get? (gas.stage + 1) with
  | none => gas
  | some currentStage =>
    let duration := currentStage.duration
    let g1 : Gas := { gas with
        stage := gas.stage + 1,
        state := currentStage.state,
        initialDuration := duration,
        percentage := 1,
        countdownStart := now }
    let g2 : Gas :=
      if currentStage.state = .Waiting then
        { g1 with
            oldPosition := g1.newPosition,
            newPosition := if currentStage.newRadius ≠ 0 then rnd else g1.newPosition,
            currentPosition := g1.newPosition,
            currentRadius := currentStage.oldRadius }
      else g1
    { g2 with
        oldRadius := currentStage.oldRadius,
        newRadius := currentStage.newRadius,
        dps := currentStage.dps }

/-- Embedding of the gas phase of `Game.tick`: the percentage is
refreshed from the frozen tick clock whenever the gas is active, and on
a damage tick (one in every 30 ticks) in the advancing state the
interpolated circle is recomputed. -/
def Game.gasTick (gas : Gas) (now : ℚ) (damageTick : Bool) : Gas :=
  let g1 :=
    if gas.state ≠ .Inactive then
      { gas with percentage := (now - gas.countdownStart) / (1000 * gas.initialDuration) }
    else gas
  if damageTick = true ∧ g1.state = .Advancing then
    { g1 with
        currentPosition := vecLerp g1.oldPosition g1.newPosition g1.percentage,
        currentRadius := lerp g1.oldRadius g1.newRadius g1.percentage }
  else g1

/-- An observable gas event: either an `advanceGas()` call or the gas
phase of one tick, each stamped with the tick clock value. -/
inductive GasEvent where
  | advance (now : ℚ) (rnd : Vec2 ℚ)
  | tick (now : ℚ) (damageTick : Bool)
  deriving Repr, DecidableEq

/-- Run a sequence of gas events, threading the clock of the last
event. -/
def Game.gasRunT : Gas → ℚ → List GasEvent → Gas × ℚ
  | g, t, [] => (g, t)
  | g, _, .advance t r :: rest => Game.gasRunT (Game.advanceGas g t r) t rest
  | g, _, .tick t d :: rest => Game.gasRunT (Game.gasTick g t d) t rest

/-- Validity of an event trace: event clocks never decrease (the tick
clock is `Date.now()` frozen per tick) and no event happens after the
pending stage transition's deadline (`advanceGas` is scheduled
`duration` seconds after the stage started). -/
def GasEvent.validTrace : Gas → ℚ → List GasEvent → Bool
  | _, _, [] => true
  | g, t0, .advance t r :: rest =>
    decide (t0 ≤ t)
      && (decide (g.state ≠ GasState.Advancing)
          || decide (t ≤ g.countdownStart + 1000 * g.initialDuration))
      && GasEvent.validTrace (Game.advanceGas g t r) t rest
  | g, t0, .tick t d :: rest =>
    decide (t0 ≤ t)
      && (decide (g.state ≠ GasState.Advancing)
          || decide (t ≤ g.countdownStart + 1000 * g.initialDuration))
      && GasEvent.validTrace (Game.gasTick g t d) t rest


/-- Proof invariant for the gas state machine: the gas record mirrors
its stage's table entry, the radii are ordered, and the current radius
dominates the interpolation at the clock of the last observed event. -/
def GasInv (g : Gas) (t0 : ℚ) : Prop :=
  (∃ st, GasStages.get? g.stage = some st ∧ g.oldRadius = st.oldRadius ∧
    g.newRadius = st.newRadius ∧ g.state = st.state ∧ g.initialDuration = st.duration) ∧
  g.newRadius ≤ g.oldRadius ∧
  g.newRadius ≤ g.currentRadius ∧
  (g.state = GasState.Advancing →
    g.countdownStart ≤ t0 ∧ 0 < g.initialDuration ∧
    lerp g.oldRadius g.newRadius ((t0 - g.countdownStart) / (1000 * g.initialDuration))
      ≤ g.currentRadius) ∧
  (g.state ≠ GasState.Advancing → g.oldRadius ≤ g.currentRadius)

/-! ####################  THEOREMS  #################### -/

theorem fromBitsLE_nil : fromBitsLE [] = 0 := rfl

theorem fromBitsLE_cons (b : Bool) (l : List Bool) :
    fromBitsLE (b :: l) = (if b then 1 else 0) + 2 * fromBitsLE l := rfl

theorem toBitsLE_length (n v : ℕ) : (toBitsLE n v).length = n := by
  induction n generalizing v with
  | zero => rfl
  | succ n ih => simp [toBitsLE, ih]

theorem fromBitsLE_toBitsLE (n v : ℕ) : fromBitsLE (toBitsLE n v) = v % 2 ^ n := by
  induction n generalizing v with
  | zero => simp [toBitsLE, fromBitsLE, Nat.mod_one]
  | succ n ih =>
    have h2 : v / 2 % 2 ^ n < 2 ^ n := Nat.mod_lt _ (by positivity)
    have hone : (1:ℕ) ≤ 2 ^ n := Nat.one_le_two_pow
    have key : v % 2 ^ (n + 1) = v % 2 + 2 * (v / 2 % 2 ^ n) := by
      conv_lhs => rw [← Nat.div_add_mod v 2]
      rw [pow_succ, mul_comm (2 ^ n) 2, Nat.add_mod, Nat.mul_mod_mul_left,
        Nat.mod_eq_of_lt (show v % 2 < 2 * 2 ^ n by omega),
        Nat.mod_eq_of_lt (by omega)]
      omega
    rw [toBitsLE, fromBitsLE_cons, ih, key]
    rcases Nat.mod_two_eq_zero_or_one v with h | h <;> simp [h]

theorem SuroiBitStream.readBits_writeBits (s : SuroiBitStream) (v : ℤ) (n : ℕ)
    (h : s.aligned) :
    (s.writeBits v n).readBits n =
      ((v % ((2:ℤ) ^ n)).toNat, ⟨(s.writeBits v n).data, s.readIndex + n⟩) := by
  unfold SuroiBitStream.aligned at h
  have hlen : (toBitsLE n (v % ((2:ℤ) ^ n)).toNat).length = n := toBitsLE_length _ _
  have hlt : ((v % ((2:ℤ) ^ n)).toNat) < 2 ^ n := by
    have h0 : (0:ℤ) < (2:ℤ) ^ n := by positivity
    have h1 := Int.emod_lt_of_pos v h0
    have h2 := Int.emod_nonneg v (ne_of_gt h0)
    have h3 : ((2:ℤ) ^ n) = ((2 ^ n : ℕ) : ℤ) := by push_cast; ring
    omega
  simp only [SuroiBitStream.writeBits, SuroiBitStream.readBits, h, List.drop_left,
    List.take_of_length_le hlen.le, fromBitsLE_toBitsLE, Nat.mod_eq_of_lt hlt]

/-! ## Quantization lemmas -/

section QuantLemmas

variable {K : Type} [LinearOrderedField K] [FloorRing K]

theorem quantizeFloat_nonneg (value mn mx : K) (bitCount : ℕ) (hmn : mn < mx) :
    0 ≤ quantizeFloat value mn mx bitCount := by
  unfold quantizeFloat jsTrunc
  set R : ℕ := 2 ^ bitCount - 1 with hR
  set clamped : K := if value < mx then (if value > mn then value else mn) else mx with hc
  have hcl : mn ≤ clamped ∧ clamped ≤ mx := by
    rw [hc]; split_ifs <;> constructor <;> linarith
  have hd : (0:K) < mx - mn := by linarith
  have ht : (0:K) ≤ (clamped - mn) / (mx - mn) :=
    div_nonneg (by linarith [hcl.1]) (le_of_lt hd)
  have harg : (0:K) ≤ (clamped - mn) / (mx - mn) * (R : K) + 1/2 := by positivity
  rw [if_pos harg]
  exact Int.floor_nonneg.mpr harg

theorem quantizeFloat_le_range (value mn mx : K) (bitCount : ℕ) (hmn : mn < mx) :
    quantizeFloat value mn mx bitCount ≤ ((2 ^ bitCount - 1 : ℕ) : ℤ) := by
  unfold quantizeFloat jsTrunc
  set R : ℕ := 2 ^ bitCount - 1 with hR
  set clamped : K := if value < mx then (if value > mn then value else mn) else mx with hc
  have hcl : mn ≤ clamped ∧ clamped ≤ mx := by
    rw [hc]; split_ifs <;> constructor <;> linarith
  have hd : (0:K) < mx - mn := by linarith
  have ht1 : (clamped - mn) / (mx - mn) ≤ 1 := by
    rw [div_le_one hd]; linarith [hcl.2]
  have ht0 : (0:K) ≤ (clamped - mn) / (mx - mn) :=
    div_nonneg (by linarith [hcl.1]) (le_of_lt hd)
  have hRn : (0:K) ≤ (R : K) := by positivity
  have harg : (0:K) ≤ (clamped - mn) / (mx - mn) * (R : K) + 1/2 := by positivity
  rw [if_pos harg]
  have hlt2 : ⌊(clamped - mn) / (mx - mn) * (R : K) + 1/2⌋ < ((R : ℤ) + 1) := by
    rw [Int.floor_lt]
    push_cast
    nlinarith
  omega

/-- Reading a float immediately after writing one recovers exactly the
dequantized quantization of the input. -/
theorem readFloat_writeFloat (s : SuroiBitStream) (value mn mx : K) (bitCount : ℕ)
    (hs : s.aligned) (hmn : mn < mx) :
    ((s.writeFloat value mn mx bitCount).readFloat mn mx bitCount).1 =
      dequantizeFloat mn mx bitCount (quantizeFloat value mn mx bitCount).toNat := by
  have h0 := quantizeFloat_nonneg value mn mx bitCount hmn
  have h1 := quantizeFloat_le_range value mn mx bitCount hmn
  have hlt : quantizeFloat value mn mx bitCount < (2:ℤ) ^ bitCount := by
    have h2 : ((2 ^ bitCount - 1 : ℕ) : ℤ) < (2:ℤ) ^ bitCount := by
      have : (1:ℕ) ≤ 2 ^ bitCount := Nat.one_le_two_pow
      push_cast [this]
      omega
    omega
  have hmod : quantizeFloat value mn mx bitCount % ((2:ℤ) ^ bitCount)
      = quantizeFloat value mn mx bitCount := Int.emod_eq_of_lt h0 hlt
  unfold SuroiBitStream.writeFloat SuroiBitStream.readFloat
  rw [show (s.writeBits (jsTrunc ((((if value < mx then (if value > mn then value else mn) else mx) - mn) / (mx - mn)) * ((2 ^ bitCount - 1 : ℕ) : K) + 1/2)) bitCount)
      = s.writeBits (quantizeFloat value mn mx bitCount) bitCount from rfl]
  rw [SuroiBitStream.readBits_writeBits s _ bitCount hs]
  simp only [hmod]
  rfl

/-- Core quantization error bound: for an in-range input the dequantized
quantization differs from the input by at most half a step, in
particular by at most `(max - min) / (2^bitCount - 1)`. -/
theorem dequantize_quantize_error (value mn mx : K) (bitCount : ℕ)
    (hmn : mn < mx) (hb : 1 ≤ bitCount) (hv1 : mn ≤ value) (hv2 : value ≤ mx) :
    |dequantizeFloat mn mx bitCount (quantizeFloat value mn mx bitCount).toNat - value|
      ≤ (mx - mn) / ((2 ^ bitCount - 1 : ℕ) : K) := by
  have h0 := quantizeFloat_nonneg value mn mx bitCount hmn
  set R : ℕ := 2 ^ bitCount - 1 with hRdef
  have hR1 : 1 ≤ R := by
    have h2 : 2 ^ 1 ≤ 2 ^ bitCount := Nat.pow_le_pow_right (by norm_num) hb
    omega
  have hRK : (0:K) < (R : K) := by exact_mod_cast Nat.lt_of_lt_of_le Nat.zero_lt_one hR1
  have hd : (0:K) < mx - mn := by linarith
  -- the clamp is the identity on in-range inputs
  have hcl : (if value < mx then (if value > mn then value else mn) else mx) = value := by
    split_ifs with h1 h2 <;> linarith
  set t : K := (value - mn) / (mx - mn) with htdef
  have hq : quantizeFloat value mn mx bitCount = ⌊t * (R : K) + 1/2⌋ := by
    unfold quantizeFloat jsTrunc
    rw [hcl]
    have ht0 : (0:K) ≤ t := div_nonneg (by linarith) (le_of_lt hd)
    rw [if_pos (by positivity)]
  set q : ℤ := quantizeFloat value mn mx bitCount with hqdef
  have hcast : ((q.toNat : K)) = ((q : ℤ) : K) := by
    exact_mod_cast congrArg (fun z : ℤ => (z : K)) (Int.toNat_of_nonneg h0)
  have hfl1 : ((q : K)) ≤ t * (R : K) + 1/2 := by
    rw [hq]; exact_mod_cast Int.floor_le _
  have hfl2 : t * (R : K) + 1/2 - 1 < (q : K) := by
    rw [hq]; exact_mod_cast Int.sub_one_lt_floor _
  have hv : value = mn + t * (mx - mn) := by
    rw [htdef, div_mul_cancel₀]
    · ring
    · linarith
  have key : dequantizeFloat mn mx bitCount q.toNat - value
      = ((q : K) - t * (R : K)) * ((mx - mn) / (R : K)) := by
    rw [show dequantizeFloat mn mx bitCount q.toNat
        = mn + (mx - mn) * ((q.toNat : K)) / ((R : ℕ) : K) from rfl]
    rw [hcast]
    conv_lhs => rw [hv]
    field_simp
    ring
  rw [key, abs_mul, abs_of_pos (div_pos hd hRK)]
  have habs : |(q : K) - t * (R : K)| ≤ 1/2 := by
    rw [abs_le]
    constructor <;> linarith
  calc |(q : K) - t * (R : K)| * ((mx - mn) / (R : K))
      ≤ (1/2) * ((mx - mn) / (R : K)) := by
        apply mul_le_mul_of_nonneg_right habs (le_of_lt (div_pos hd hRK))
    _ ≤ (mx - mn) / (R : K) := by
        have hpos : (0:K) < (mx - mn) / (R : K) := div_pos hd hRK
        linarith

end QuantLemmas

/-! ## Claim C3: per-player dirty-set projection -/

/-- C3: starting from empty per-player sets, the projection puts an
object in the player's full set iff it is globally full-dirty and
visible; in the partial set iff it is globally partial-dirty, visible
and not in the (just computed) full set; a deleted object is included
only if visible.  The concrete scenario of the claim (visible = {A,B},
full = {B,C}, partial = {A}, deleted = {D}, encoded as A=1, B=2, C=3,
D=4 with player id 0) projects to full = {B}, partial = {A},
deleted = ∅. -/
theorem spec_c3_projection :
    (∀ (visible gFull gPartial gDeleted : Finset ℕ) (playerId o : ℕ),
      (o ∈ (projectDirtySets visible ∅ ∅ ∅ gFull gPartial gDeleted playerId).1 ↔
        o ∈ gFull ∧ o ∈ visible) ∧
      (o ∈ (projectDirtySets visible ∅ ∅ ∅ gFull gPartial gDeleted playerId).2.1 ↔
        o ∈ gPartial ∧ o ∈ visible ∧
          o ∉ (projectDirtySets visible ∅ ∅ ∅ gFull gPartial gDeleted playerId).1) ∧
      (o ∈ (projectDirtySets visible ∅ ∅ ∅ gFull gPartial gDeleted playerId).2.2 →
        o ∈ visible)) ∧
    projectDirtySets {1, 2} ∅ ∅ ∅ {2, 3} {1} {4} 0 = ({2}, {1}, ∅) := by
  constructor
  · intro visible gFull gPartial gDeleted playerId o
    refine ⟨?_, ?_, ?_⟩ <;>
      (simp [projectDirtySets, Finset.mem_filter, Finset.mem_union]; try tauto)
  · decide

/-! ## Claim C10: a player is never projected into their own deleted set -/

/-- C10: the deleted-objects projection of `Game.tick` never adds the
player object to that player's own deleted set, even when the player is
in the global deleted set and in their own visible set — the player's
deleted set keeps exactly its previous members as far as the player's
own id is concerned. -/
theorem spec_c10_never_self_delete :
    ∀ (visible pFull0 pPartial0 pDeleted0 gFull gPartial gDeleted : Finset ℕ) (playerId : ℕ),
      playerId ∈ (projectDirtySets visible pFull0 pPartial0 pDeleted0
          gFull gPartial gDeleted playerId).2.2 ↔ playerId ∈ pDeleted0 := by
  intro visible pFull0 pPartial0 pDeleted0 gFull gPartial gDeleted playerId
  simp [projectDirtySets, Finset.mem_filter, Finset.mem_union]

/-! ## Claim C9: the gas membership predicate -/

/-- C9 counterexample: at the initial gas state (centre (360,360),
radius 512) the point (872,360) has squared distance exactly equal to
the squared radius; `isInGas` returns `true` for it, so the claimed
"strictly exceeds / boundary is outside the gas" characterization is
false. -/
theorem spec_c9_counterexample :
    ¬(Game.isInGas initialGas ⟨872, 360⟩ = true ↔
      distanceSquared ⟨872, 360⟩ initialGas.currentPosition > initialGas.currentRadius ^ 2) := by
  intro h
  have h1 : distanceSquared ⟨872, 360⟩ initialGas.currentPosition
      = initialGas.currentRadius ^ 2 := by
    norm_num [distanceSquared, initialGas]
  have h2 : Game.isInGas initialGas ⟨872, 360⟩ = true := by
    simp [Game.isInGas, h1]
  have h3 := h.mp h2
  rw [h1] at h3
  exact lt_irrefl _ h3

/-- C9 amended: `isInGas(p)` returns true iff the squared distance from
`p` to the gas centre is greater than or equal to the squared current
radius (the boundary counts as inside the gas). -/
theorem spec_c9_amended :
    ∀ (gas : Gas) (position : Vec2 ℚ),
      Game.isInGas gas position = true ↔
        distanceSquared position gas.currentPosition ≥ gas.currentRadius ^ 2 := by
  intro gas position
  simp [Game.isInGas]

/-! ## Claim C5: collision filtering -/

/-- C5: for fixture user data whose `is` record asserts at most one
kind (true of every game object), `shouldCollide` evaluated from A's
side returns true iff A's `is` flag is set for some kind whose
`collidesWith` flag is set on B; and the four archetypes produce
exactly the documented matrix: players collide with obstacles but not
with other players or loot; bullets collide with players and obstacles
but not with other bullets or loot; loot collides only with obstacles
and other loot. -/
theorem spec_c5_collision_filter :
    (∀ a b : FixtureUserData, a.atMostOneKind →
      (shouldCollide a b = true ↔
        ∃ k : ObjectKind, a.is.flag k = true ∧ b.collidesWith.flag k = true)) ∧
    (shouldCollide playerUserData obstacleUserData = true ∧
      shouldCollide playerUserData playerUserData = false ∧
      shouldCollide playerUserData lootUserData = false ∧
      shouldCollide playerUserData bulletUserData = true ∧
      shouldCollide obstacleUserData playerUserData = true ∧
      shouldCollide obstacleUserData obstacleUserData = false ∧
      shouldCollide obstacleUserData bulletUserData = true ∧
      shouldCollide obstacleUserData lootUserData = true ∧
      shouldCollide bulletUserData playerUserData = true ∧
      shouldCollide bulletUserData obstacleUserData = true ∧
      shouldCollide bulletUserData bulletUserData = false ∧
      shouldCollide bulletUserData lootUserData = false ∧
      shouldCollide lootUserData playerUserData = false ∧
      shouldCollide lootUserData obstacleUserData = true ∧
      shouldCollide lootUserData bulletUserData = false ∧
      shouldCollide lootUserData lootUserData = true) := by
  constructor
  · intro a b hmost
    constructor
    · intro h
      unfold shouldCollide at h
      split_ifs at h with h1 h2 h3 h4
      · exact ⟨.player, h1, h⟩
      · exact ⟨.obstacle, h2, h⟩
      · exact ⟨.bullet, h3, h⟩
      · exact ⟨.loot, h4, h⟩
    · rintro ⟨k, hk, hbk⟩
      have hother : ∀ k' : ObjectKind, k' ≠ k → a.is.flag k' = false := by
        intro k' hne
        cases h' : a.is.flag k'
        · rfl
        · exact absurd (hmost k' k h' hk) hne
      cases k with
      | player =>
        have h1 : a.is.player = true := hk
        have hb : b.collidesWith.player = true := hbk
        simp [shouldCollide, h1, hb]
      | obstacle =>
        have h1 : a.is.player = false := hother .player (by decide)
        have h2 : a.is.obstacle = true := hk
        have hb : b.collidesWith.obstacle = true := hbk
        simp [shouldCollide, h1, h2, hb]
      | bullet =>
        have h1 : a.is.player = false := hother .player (by decide)
        have h2 : a.is.obstacle = false := hother .obstacle (by decide)
        have h3 : a.is.bullet = true := hk
        have hb : b.collidesWith.bullet = true := hbk
        simp [shouldCollide, h1, h2, h3, hb]
      | loot =>
        have h1 : a.is.player = false := hother .player (by decide)
        have h2 : a.is.obstacle = false := hother .obstacle (by decide)
        have h3 : a.is.bullet = false := hother .bullet (by decide)
        have h4 : a.is.loot = true := hk
        have hb : b.collidesWith.loot = true := hbk
        simp [shouldCollide, h1, h2, h3, h4, hb]
  · decide

/-- C5 witness: the characterization applied to the bullet and player
archetypes (bullets do collide with players). -/
theorem spec_c5_witness :
    bulletUserData.atMostOneKind ∧
    (shouldCollide bulletUserData playerUserData = true ↔
      ∃ k : ObjectKind, bulletUserData.is.flag k = true ∧
        playerUserData.collidesWith.flag k = true) :=
  ⟨by decide, spec_c5_collision_filter.1 bulletUserData playerUserData (by decide)⟩

/-! ## Claim C7: static visibility precomputation -/

/-- C7 counterexample: with zoom 48 the code's cull window is 84 × 64.8
(half-width 48·1.75, half-height 48·1.35), not 84 × 60 as the claim's
half-height 48·1.25 would give: the static object at (5, 62) is inside
the precomputed set of cell (0,0) although its vertical offset 62
exceeds 48·1.25 = 60. -/
theorem spec_c7_counterexample :
    ((5:ℚ), (62:ℚ)) ∈ visibleObjectsGrid [((5:ℚ), (62:ℚ))] 48 0 0 ∧
    ¬((0:ℚ) - 48 * 1.25 < 62 ∧ (62:ℚ) < 0 + 48 * 1.25) := by
  constructor
  · simp [visibleObjectsGrid, visibleObjectsForCell, List.mem_filter]
    norm_num
  · norm_num

/-- C7 amended: for every zoom level and grid cell, the precomputed set
contains exactly the static objects strictly inside the asymmetric
window of half-width `zoom · 1.75` and half-height `zoom · 1.35`
centred on the cell. -/
theorem spec_c7_amended :
    ∀ (staticObjects : List (ℚ × ℚ)) (zoomLevel : ℚ) (x y : ℕ) (p : ℚ × ℚ),
      p ∈ visibleObjectsGrid staticObjects zoomLevel x y ↔
        p ∈ staticObjects ∧
          (10 * (x:ℚ) - zoomLevel * 1.75 < p.1 ∧ p.1 < 10 * (x:ℚ) + zoomLevel * 1.75 ∧
           10 * (y:ℚ) - zoomLevel * 1.35 < p.2 ∧ p.2 < 10 * (y:ℚ) + zoomLevel * 1.35) := by
  intro staticObjects zoomLevel x y p
  simp [visibleObjectsGrid, visibleObjectsForCell, List.mem_filter]

/-! ## Claim C2: float quantization round-trip bound -/

/-- C2: for every in-range value and bit count at least 1, writing a
float and reading it back on the same stream yields a value within
`(max - min) / (2^bitCount - 1)` of the original; `writeFloat` clamps to
`[min, max]` and rounds to nearest by adding `0.5` before truncation
(this behaviour is the definition of the embedded `writeFloat`). -/
theorem spec_c2_quantization_bound (s : SuroiBitStream) (v mn mx : ℝ) (b : ℕ)
    (hs : s.aligned) (hmn : mn < mx) (hb : 1 ≤ b) (hv1 : mn ≤ v) (hv2 : v ≤ mx) :
    |((s.writeFloat v mn mx b).readFloat mn mx b).1 - v| ≤ (mx - mn) / (2 ^ b - 1) := by
  have h := readFloat_writeFloat s v mn mx b hs hmn
  rw [h]
  have h2 := dequantize_quantize_error v mn mx b hmn hb hv1 hv2
  have hcast : ((2 ^ b - 1 : ℕ) : ℝ) = (2:ℝ) ^ b - 1 := by
    have h1 : (1:ℕ) ≤ 2 ^ b := Nat.one_le_two_pow
    push_cast [h1]
    ring
  rw [hcast] at h2
  exact h2

/-- C2 witness: writing 3 over `[0, 10]` with 2 bits and reading it back
stays within `10/3` of the original. -/
theorem spec_c2_witness :
    (SuroiBitStream.alloc 4).aligned ∧ (0:ℝ) < 10 ∧ 1 ≤ 2 ∧ (0:ℝ) ≤ 3 ∧ (3:ℝ) ≤ 10 ∧
    |(((SuroiBitStream.alloc 4).writeFloat (3:ℝ) 0 10 2).readFloat (0:ℝ) 10 2).1 - 3|
      ≤ ((10:ℝ) - 0) / (2 ^ 2 - 1) :=
  ⟨rfl, by norm_num, by norm_num, by norm_num, by norm_num,
    spec_c2_quantization_bound (SuroiBitStream.alloc 4) 3 0 10 2 rfl
      (by norm_num) (by norm_num) (by norm_num) (by norm_num)⟩

/-! ## Claim C1: typed write/read round trips -/

theorem quantizeFloat_toNat_lt {K : Type} [LinearOrderedField K] [FloorRing K]
    (value mn mx : K) (bitCount : ℕ) (hmn : mn < mx) :
    (quantizeFloat value mn mx bitCount).toNat < 2 ^ bitCount := by
  have h0 := quantizeFloat_nonneg value mn mx bitCount hmn
  have h1 := quantizeFloat_le_range value mn mx bitCount hmn
  have h2 : (1:ℕ) ≤ 2 ^ bitCount := Nat.one_le_two_pow
  omega

theorem writeFloat_data {K : Type} [LinearOrderedField K] [FloorRing K]
    (s : SuroiBitStream) (value mn mx : K) (bitCount : ℕ) (hmn : mn < mx) :
    (s.writeFloat value mn mx bitCount).data
      = s.data ++ toBitsLE bitCount (quantizeFloat value mn mx bitCount).toNat := by
  have h0 := quantizeFloat_nonneg value mn mx bitCount hmn
  have h1 := quantizeFloat_le_range value mn mx bitCount hmn
  have h2 : (1:ℕ) ≤ 2 ^ bitCount := Nat.one_le_two_pow
  have hlt : quantizeFloat value mn mx bitCount < (2:ℤ) ^ bitCount := by
    have h3 : ((2 ^ bitCount - 1 : ℕ) : ℤ) < (2:ℤ) ^ bitCount := by
      push_cast [h2]
      omega
    omega
  have hmod : quantizeFloat value mn mx bitCount % ((2:ℤ) ^ bitCount)
      = quantizeFloat value mn mx bitCount := Int.emod_eq_of_lt h0 hlt
  show s.data ++ toBitsLE bitCount
      ((quantizeFloat value mn mx bitCount % ((2:ℤ) ^ bitCount)).toNat) = _
  rw [hmod]

theorem readBits_at (s : SuroiBitStream) (b q : ℕ) (rest : List Bool) (hq : q < 2 ^ b)
    (h : s.data.drop s.readIndex = toBitsLE b q ++ rest) :
    s.readBits b = (q, ⟨s.data, s.readIndex + b⟩) := by
  unfold SuroiBitStream.readBits
  rw [h, List.take_left' (toBitsLE_length b q), fromBitsLE_toBitsLE, Nat.mod_eq_of_lt hq]

theorem readFloat_at {K : Type} [LinearOrderedField K] [FloorRing K]
    (s : SuroiBitStream) (mn mx : K) (b q : ℕ) (rest : List Bool) (hq : q < 2 ^ b)
    (h : s.data.drop s.readIndex = toBitsLE b q ++ rest) :
    s.readFloat mn mx b = (dequantizeFloat mn mx b q, ⟨s.data, s.readIndex + b⟩) := by
  unfold SuroiBitStream.readFloat dequantizeFloat
  rw [readBits_at s b q rest hq h]

/-- Reading a position back directly after writing one yields the
quantized X coordinate and the quantized inverted Y coordinate
(`720 - y`); the Y inversion is not undone by `readPosition`. -/
theorem readPosition_writePosition {K : Type} [LinearOrderedField K] [FloorRing K]
    (s : SuroiBitStream) (p : Vec2 K) (hs : s.aligned) :
    (SuroiBitStream.readPosition (SuroiBitStream.writePosition s p)
        : Vec2 K × SuroiBitStream).1 =
      ⟨dequantizeFloat 0 1024 16 (quantizeFloat p.x 0 1024 16).toNat,
       dequantizeFloat 0 1024 16 (quantizeFloat (720 - p.y) 0 1024 16).toNat⟩ := by
  have h1024 : (0:K) < 1024 := by norm_num
  have hd1 := writeFloat_data s p.x 0 1024 16 h1024
  set c1 := toBitsLE 16 (quantizeFloat p.x (0:K) 1024 16).toNat with hc1
  set s1 := SuroiBitStream.writeFloat s p.x 0 1024 16 with hs1
  have hd2 := writeFloat_data s1 (720 - p.y) 0 1024 16 h1024
  set c2 := toBitsLE 16 (quantizeFloat (720 - p.y) (0:K) 1024 16).toNat with hc2
  set s2 := SuroiBitStream.writeFloat s1 (720 - p.y) 0 1024 16 with hs2
  have hindex : s2.readIndex = s.data.length := hs
  have hdata : s2.data = s.data ++ c1 ++ c2 := by rw [hd2, hd1]
  have hlen1 : c1.length = 16 := toBitsLE_length _ _
  have hq1 : (quantizeFloat p.x (0:K) 1024 16).toNat < 2 ^ 16 :=
    quantizeFloat_toNat_lt _ _ _ _ h1024
  have hq2 : (quantizeFloat (720 - p.y) (0:K) 1024 16).toNat < 2 ^ 16 :=
    quantizeFloat_toNat_lt _ _ _ _ h1024
  have hdrop1 : s2.data.drop s2.readIndex = c1 ++ c2 := by
    rw [hdata, hindex, List.append_assoc, List.drop_left]
  have hread1 := readFloat_at s2 (0:K) 1024 16 _ c2 hq1 hdrop1
  have hdrop2 : s2.data.drop (s2.readIndex + 16) = c2 ++ [] := by
    rw [hdata, hindex, List.append_nil,
      show s.data.length + 16 = (s.data ++ c1).length by simp [hlen1], List.drop_left]
  have hread2 := readFloat_at ⟨s2.data, s2.readIndex + 16⟩ (0:K) 1024 16 _ [] hq2 hdrop2
  show (SuroiBitStream.readVector s2 (0:K) 0 1024 1024 16).1 = _
  simp only [SuroiBitStream.readVector, hread1, hread2]

/-- C1 counterexample: writing the position `(0, 0)` and reading it back
does not return `(0, 0)` — the Y coordinate comes back as the quantized
value of `720 - 0`, roughly `719.995`. -/
theorem spec_c1_counterexample :
    (SuroiBitStream.readPosition
        (SuroiBitStream.writePosition (SuroiBitStream.alloc 16) (⟨0, 0⟩ : Vec2 ℚ))).1
      ≠ (⟨0, 0⟩ : Vec2 ℚ) := by
  rw [readPosition_writePosition (SuroiBitStream.alloc 16) (⟨0, 0⟩ : Vec2 ℚ) rfl]
  have harg : ((if ((720:ℚ) - 0) < 1024 then (if ((720:ℚ) - 0) > 0 then (720:ℚ) - 0 else 0) else 1024) - 0)
      / (1024 - 0) * ((2 ^ 16 - 1 : ℕ) : ℚ) + 1/2 = 2949107 / 64 := by
    norm_num
  have hq : quantizeFloat ((720:ℚ) - 0) 0 1024 16 = 46079 := by
    unfold quantizeFloat jsTrunc
    rw [if_pos (by rw [harg]; norm_num)]
    rw [harg, Int.floor_eq_iff]
    constructor <;> norm_num
  intro h
  have hy := congrArg Vec2.y h
  simp only at hy
  rw [hq] at hy
  unfold dequantizeFloat at hy
  norm_num at hy

/-- C1 amended: the typed pairs are not inverse to each other literally;
what holds is: `readPosition ∘ writePosition` returns the 16-bit
quantization over `[0,1024]` of `(x, 720 - y)` — quantized and with the
Y axis still inverted, not the original vector; for obstacle rotations,
mode `binary` decodes the written index `i ∈ {0,1}` as the angle
`i·π/2`, mode `limited` decodes the written index `i ∈ {0..3}` as the
normalized angle of `i·π/2` (radians, not the index), and mode `full`
round-trips only up to the 4-bit quantization error `2π/15`. -/
theorem spec_c1_amended :
    (∀ (s : SuroiBitStream) (p : Vec2 ℚ), s.aligned →
      (SuroiBitStream.readPosition (SuroiBitStream.writePosition s p)
          : Vec2 ℚ × SuroiBitStream).1 =
        ⟨dequantizeFloat 0 1024 16 (quantizeFloat p.x 0 1024 16).toNat,
         dequantizeFloat 0 1024 16 (quantizeFloat (720 - p.y) 0 1024 16).toNat⟩) ∧
    (∀ (s : SuroiBitStream) (i : ℕ), s.aligned → i ≤ 1 →
      ( SuroiBitStream.readObstacleRotation
          ( SuroiBitStream.writeObstacleRotation s (i:ℝ) RotationMode.binary)
          RotationMode.binary).1 = (i:ℝ) * (Real.pi / 2)) ∧
    (∀ (s : SuroiBitStream) (i : ℕ), s.aligned → i ≤ 3 →
      ( SuroiBitStream.readObstacleRotation
          ( SuroiBitStream.writeObstacleRotation s (i:ℝ) RotationMode.limited)
          RotationMode.limited).1 = normalizeAngle ((i:ℝ) * (Real.pi / 2))) ∧
    (∀ (s : SuroiBitStream) (v : ℝ), s.aligned → -Real.pi ≤ v → v ≤ Real.pi →
      |( SuroiBitStream.readObstacleRotation
          ( SuroiBitStream.writeObstacleRotation s v RotationMode.full)
          RotationMode.full).1 - v| ≤ 2 * Real.pi / 15) := by
  refine ⟨?_, ?_, ?_, ?_⟩
  · intro s p hs
    exact readPosition_writePosition s p hs
  · intro s i hs hi
    have hj : jsTrunc ((i:ℝ)) = (i:ℤ) := by
      unfold jsTrunc
      rw [if_pos (by positivity)]
      exact Int.floor_natCast i
    have hlt : (i:ℤ) < (2:ℤ) ^ 1 := by
      have : (i:ℤ) ≤ 1 := by exact_mod_cast hi
      omega
    have hmod : (i:ℤ) % ((2:ℤ) ^ 1) = (i:ℤ) := Int.emod_eq_of_lt (by positivity) hlt
    have hr := SuroiBitStream.readBits_writeBits s (jsTrunc ((i:ℝ))) 1 hs
    rw [hj, hmod] at hr
    simp only [SuroiBitStream.writeObstacleRotation, SuroiBitStream.readObstacleRotation,
      SuroiBitStream.readBoolean, hj, hr]
    interval_cases i
    · simp
    · simp
  · intro s i hs hi
    have hj : jsTrunc ((i:ℝ)) = (i:ℤ) := by
      unfold jsTrunc
      rw [if_pos (by positivity)]
      exact Int.floor_natCast i
    have hlt : (i:ℤ) < (2:ℤ) ^ 2 := by
      have : (i:ℤ) ≤ 3 := by exact_mod_cast hi
      omega
    have hmod : (i:ℤ) % ((2:ℤ) ^ 2) = (i:ℤ) := Int.emod_eq_of_lt (by positivity) hlt
    have hr := SuroiBitStream.readBits_writeBits s (jsTrunc ((i:ℝ))) 2 hs
    rw [hj, hmod] at hr
    simp only [SuroiBitStream.writeObstacleRotation, SuroiBitStream.readObstacleRotation,
      hj, hr, Int.toNat_natCast]
  · intro s v hs hv1 hv2
    have hpi : -Real.pi < Real.pi := by linarith [Real.pi_pos]
    have h := readFloat_writeFloat s v (-Real.pi) Real.pi 4 hs hpi
    have h2 := dequantize_quantize_error v (-Real.pi) Real.pi 4 hpi (by norm_num) hv1 hv2
    have h15 : ((2 ^ 4 - 1 : ℕ) : ℝ) = 15 := by norm_num
    rw [h15] at h2
    show |( SuroiBitStream.readFloat
        ( SuroiBitStream.writeFloat s v (-Real.pi) Real.pi 4) (-Real.pi) Real.pi 4).1 - v|
      ≤ 2 * Real.pi / 15
    rw [readFloat_writeFloat s v (-Real.pi) Real.pi 4 hs hpi]
    calc |dequantizeFloat (-Real.pi) Real.pi 4
            (quantizeFloat v (-Real.pi) Real.pi 4).toNat - v|
        ≤ (Real.pi - -Real.pi) / 15 := h2
      _ = 2 * Real.pi / 15 := by ring

/-- C1 witness: the amended characterization applied at the position
`(0,0)` on a fresh stream and at the binary orientation index 1. -/
theorem spec_c1_witness :
    (SuroiBitStream.alloc 16).aligned ∧ (1:ℕ) ≤ 1 ∧
    (SuroiBitStream.readPosition
        (SuroiBitStream.writePosition (SuroiBitStream.alloc 16) (⟨0, 0⟩ : Vec2 ℚ))
        : Vec2 ℚ × SuroiBitStream).1 =
      ⟨dequantizeFloat 0 1024 16 (quantizeFloat (0:ℚ) 0 1024 16).toNat,
       dequantizeFloat 0 1024 16 (quantizeFloat (720 - (0:ℚ)) 0 1024 16).toNat⟩ ∧
    ( SuroiBitStream.readObstacleRotation
        ( SuroiBitStream.writeObstacleRotation (SuroiBitStream.alloc 16) ((1:ℕ):ℝ)
          RotationMode.binary)
        RotationMode.binary).1 = ((1:ℕ):ℝ) * (Real.pi / 2) :=
  ⟨rfl, le_refl 1,
    spec_c1_amended.1 (SuroiBitStream.alloc 16) ⟨0, 0⟩ rfl,
    spec_c1_amended.2.1 (SuroiBitStream.alloc 16) 1 rfl (le_refl 1)⟩

/-! ## Claim C4: damage clamp and single death -/

theorem Player.damageAmount_dead {K : Type} [LinearOrderedField K]
    (s : PlayerHealthState K) (a : K) (h : s.dead = true) :
    Player.damageAmount s a = 0 := by
  unfold Player.damageAmount
  rw [if_pos h]

theorem Player.damageAmount_alive {K : Type} [LinearOrderedField K]
    (s : PlayerHealthState K) (a : K) (h : s.dead = false) :
    (s.health - Player.damageAmount s a = 0 ∨ 0 < s.health - Player.damageAmount s a) ∧
    (s.health ≤ 100 → s.health - Player.damageAmount s a ≤ 100) := by
  unfold Player.damageAmount Player.damageAmount2 Player.damageAmount1
  rw [if_neg (by simp [h])]
  constructor
  · split_ifs <;> first | (left; linarith) | (right; linarith)
  · intro h100
    split_ifs <;> linarith

theorem Player.damage_dead_stays {K : Type} [LinearOrderedField K]
    (s : PlayerHealthState K) (a : K) (h : s.dead = true) :
    (Player.damage s a).2 = false ∧ (Player.damage s a).1.dead = true := by
  simp only [Player.damage]
  by_cases hinv : s.invulnerable = true
  · rw [if_pos hinv]
    exact ⟨rfl, h⟩
  · rw [if_neg hinv, if_neg (by simp [h])]
    exact ⟨rfl, h⟩

theorem Player.damage_fired_dead {K : Type} [LinearOrderedField K]
    (s : PlayerHealthState K) (a : K) (h : (Player.damage s a).2 = true) :
    (Player.damage s a).1.dead = true := by
  simp only [Player.damage] at h ⊢
  split_ifs at h ⊢ <;> rfl

theorem Player.damageSeq_dead {K : Type} [LinearOrderedField K]
    (l : List K) (s : PlayerHealthState K) (h : s.dead = true) :
    (Player.damageSeq s l).2 = 0 := by
  induction l generalizing s with
  | nil => rfl
  | cons a rest ih =>
    have h2 := Player.damage_dead_stays s a h
    simp only [Player.damageSeq, h2.1]
    rw [ih _ h2.2]
    simp

/-- C4: invulnerable players take no damage; for any real amount the
post-damage health stays in `[0,100]` when the pre-damage health is in
`[0,100]`; the death sequence fires exactly when the player was
vulnerable and alive and this call brought health to 0 (leaving the
player dead); and over any sequence of damage calls the death sequence
fires at most once. -/
theorem spec_c4_damage :
    (∀ (s : PlayerHealthState ℝ) (a : ℝ), s.invulnerable = true →
      Player.damage s a = (s, false)) ∧
    (∀ (s : PlayerHealthState ℝ) (a : ℝ), 0 ≤ s.health → s.health ≤ 100 →
      0 ≤ (Player.damage s a).1.health ∧ (Player.damage s a).1.health ≤ 100) ∧
    (∀ (s : PlayerHealthState ℝ) (a : ℝ),
      ((Player.damage s a).2 = true ↔
        s.invulnerable = false ∧ s.dead = false ∧
          (Player.damage s a).1.health = 0 ∧ (Player.damage s a).1.dead = true)) ∧
    (∀ (s : PlayerHealthState ℝ) (l : List ℝ), (Player.damageSeq s l).2 ≤ 1) := by
  refine ⟨?_, ?_, ?_, ?_⟩
  · intro s a h
    simp only [Player.damage]
    rw [if_pos h]
  · intro s a h0 h100
    simp only [Player.damage]
    by_cases hinv : s.invulnerable = true
    · rw [if_pos hinv]
      exact ⟨h0, h100⟩
    rw [if_neg hinv]
    set amt : ℝ := Player.damageAmount s a with hamt
    set hh : ℝ := if s.health - amt > 100 then (100:ℝ) else s.health - amt with hhh
    by_cases hfin : hh ≤ 0 ∧ s.dead = false
    · rw [if_pos hfin]
      norm_num
    · rw [if_neg hfin]
      show 0 ≤ hh ∧ hh ≤ 100
      constructor
      · by_cases hd : s.dead = true
        · rw [hhh, hamt, Player.damageAmount_dead s a hd]
          split_ifs <;> linarith
        · have hd' : s.dead = false := by
            cases hb : s.dead
            · rfl
            · exact absurd hb hd
          have h3 : ¬ hh ≤ 0 := fun hle => hfin ⟨hle, hd'⟩
          linarith
      · rw [hhh]
        split_ifs with h4 <;> linarith
  · intro s a
    simp only [Player.damage]
    by_cases h1 : s.invulnerable = true
    · rw [if_pos h1]
      simp [h1]
    rw [if_neg h1]
    have hinvf : s.invulnerable = false := by
      cases hb : s.invulnerable
      · rfl
      · exact absurd hb h1
    set amt : ℝ := Player.damageAmount s a with hamt
    set hh : ℝ := if s.health - amt > 100 then (100:ℝ) else s.health - amt with hhh
    by_cases hfin : hh ≤ 0 ∧ s.dead = false
    · rw [if_pos hfin]
      simp [hinvf, hfin.2]
    · rw [if_neg hfin]
      constructor
      · intro hcontra
        exact absurd hcontra (by simp)
      · rintro ⟨_, hd, _, hdt⟩
        have h2 : s.dead = true := hdt
        rw [hd] at h2
        cases h2
  · intro s l
    induction l generalizing s with
    | nil => simp [Player.damageSeq]
    | cons a rest ih =>
      simp only [Player.damageSeq]
      cases hf : (Player.damage s a).2
      · simpa using ih (Player.damage s a).1
      · have hdead := Player.damage_fired_dead s a hf
        have hz := Player.damageSeq_dead rest _ hdead
        simp [hz]

/-- C4 witness: an invulnerable full-health player is unchanged by a
150 damage hit, and a vulnerable one ends inside `[0,100]` with the
death characterization and the at-most-one-death count instantiated. -/
theorem spec_c4_witness :
    (0:ℝ) ≤ 100 ∧ (100:ℝ) ≤ 100 ∧
    (⟨100, false, true⟩ : PlayerHealthState ℝ).invulnerable = true ∧
    Player.damage (⟨100, false, true⟩ : PlayerHealthState ℝ) 150
      = (⟨100, false, true⟩, false) ∧
    (0 ≤ (Player.damage (⟨100, false, false⟩ : PlayerHealthState ℝ) 150).1.health ∧
      (Player.damage (⟨100, false, false⟩ : PlayerHealthState ℝ) 150).1.health ≤ 100) ∧
    ((Player.damage (⟨100, false, false⟩ : PlayerHealthState ℝ) 150).2 = true ↔
      (⟨100, false, false⟩ : PlayerHealthState ℝ).invulnerable = false ∧
        (⟨100, false, false⟩ : PlayerHealthState ℝ).dead = false ∧
        (Player.damage (⟨100, false, false⟩ : PlayerHealthState ℝ) 150).1.health = 0 ∧
        (Player.damage (⟨100, false, false⟩ : PlayerHealthState ℝ) 150).1.dead = true) ∧
    (Player.damageSeq (⟨100, false, false⟩ : PlayerHealthState ℝ) [150, 150]).2 ≤ 1 :=
  ⟨by norm_num, by norm_num, rfl,
    spec_c4_damage.1 ⟨100, false, true⟩ 150 rfl,
    spec_c4_damage.2.1 ⟨100, false, false⟩ 150 (by norm_num) (by norm_num),
    spec_c4_damage.2.2.1 ⟨100, false, false⟩ 150,
    spec_c4_damage.2.2.2 ⟨100, false, false⟩ [150, 150]⟩

/-! ## Claim C6: visibility update lemmas -/

section VisLemmas

variable (c : VisCtx)

theorem visDynStep_visible_mono (st : VisState × Finset ℕ) (o p : ℕ) :
    st.1.visible p ⊆ (visDynStep c st o).1.visible p := by
  intro x hx
  by_cases h1 : c.inWindow o <;>
    by_cases h2 : o ∈ st.1.visible c.thisId <;>
    by_cases h3 : c.dead = false ∧ c.isPlayer o = true ∧ c.thisId ∉ st.1.visible o <;>
    simp_all [visDynStep, Function.update_apply] <;>
    (try split_ifs) <;>
    simp_all [Finset.mem_insert]

theorem visDynStep_visible_le (st : VisState × Finset ℕ) (o p : ℕ) :
    (visDynStep c st o).1.visible p ⊆ insert c.thisId (st.1.visible p) := by
  intro x hx
  by_cases h1 : c.inWindow o <;>
    by_cases h2 : o ∈ st.1.visible c.thisId <;>
    by_cases h3 : c.dead = false ∧ c.isPlayer o = true ∧ c.thisId ∉ st.1.visible o <;>
    simp_all [visDynStep, Function.update_apply] <;>
    (try split_ifs at hx) <;>
    simp_all [Finset.mem_insert]

theorem visDynStep_fullDirty_mono (st : VisState × Finset ℕ) (o p : ℕ) :
    st.1.fullDirty p ⊆ (visDynStep c st o).1.fullDirty p := by
  intro x hx
  by_cases h1 : c.inWindow o <;>
    by_cases h2 : o ∈ st.1.visible c.thisId <;>
    by_cases h3 : c.dead = false ∧ c.isPlayer o = true ∧ c.thisId ∉ st.1.visible o <;>
    simp_all [visDynStep, Function.update_apply] <;>
    (try split_ifs) <;>
    simp_all [Finset.mem_insert, Function.update_apply] <;>
    (try split_ifs) <;>
    simp_all [Finset.mem_insert]

theorem visDynStep_sym_inv (st : VisState × Finset ℕ) (o q : ℕ)
    (h : c.thisId ∈ st.1.visible q → c.thisId ∈ st.1.fullDirty q) :
    c.thisId ∈ (visDynStep c st o).1.visible q →
      c.thisId ∈ (visDynStep c st o).1.fullDirty q := by
  intro hv
  by_cases h1 : c.inWindow o <;>
    by_cases h2 : o ∈ st.1.visible c.thisId <;>
    by_cases h3 : c.dead = false ∧ c.isPlayer o = true ∧ c.thisId ∉ st.1.visible o <;>
    simp_all [visDynStep, Function.update_apply] <;>
    (try split_ifs at hv ⊢) <;>
    simp_all [Finset.mem_insert, Function.update_apply] <;>
    (try split_ifs at hv ⊢) <;>
    simp_all [Finset.mem_insert]

theorem visDynStep_visible_new (st : VisState × Finset ℕ) (o q : ℕ) :
    c.thisId ∈ (visDynStep c st o).1.visible q →
      c.thisId ∈ st.1.visible q ∨ c.thisId ∈ (visDynStep c st o).1.fullDirty q := by
  intro hv
  by_cases h1 : c.inWindow o <;>
    by_cases h2 : o ∈ st.1.visible c.thisId <;>
    by_cases h3 : c.dead = false ∧ c.isPlayer o = true ∧ c.thisId ∉ st.1.visible o <;>
    simp_all [visDynStep, Function.update_apply] <;>
    (try split_ifs at hv ⊢) <;>
    simp_all [Finset.mem_insert]

theorem visDynStep_sym_est (st : VisState × Finset ℕ) (q : ℕ)
    (hdead : c.dead = false) (hp : c.isPlayer q = true) (hw : c.inWindow q)
    (hprev : c.thisId ∈ st.1.visible q → c.thisId ∈ st.1.fullDirty q) :
    c.thisId ∈ (visDynStep c st q).1.visible q ∧
      c.thisId ∈ (visDynStep c st q).1.fullDirty q := by
  by_cases hv : c.thisId ∈ st.1.visible q
  · exact ⟨visDynStep_visible_mono c st q q hv,
      visDynStep_fullDirty_mono c st q q (hprev hv)⟩
  · by_cases h2 : q ∈ st.1.visible c.thisId <;>
      simp_all [visDynStep, Function.update_apply]

theorem visFold_visible_mono (l : List ℕ) (st : VisState × Finset ℕ) (p : ℕ) :
    st.1.visible p ⊆ (List.foldl (visDynStep c) st l).1.visible p := by
  induction l generalizing st with
  | nil => exact subset_refl _
  | cons o rest ih =>
    exact (visDynStep_visible_mono c st o p).trans (ih _)

theorem visFold_fullDirty_mono (l : List ℕ) (st : VisState × Finset ℕ) (p : ℕ) :
    st.1.fullDirty p ⊆ (List.foldl (visDynStep c) st l).1.fullDirty p := by
  induction l generalizing st with
  | nil => exact subset_refl _
  | cons o rest ih =>
    exact (visDynStep_fullDirty_mono c st o p).trans (ih _)

theorem visFold_visible_le (l : List ℕ) (st : VisState × Finset ℕ) (p : ℕ) :
    (List.foldl (visDynStep c) st l).1.visible p ⊆ insert c.thisId (st.1.visible p) := by
  induction l generalizing st with
  | nil => exact Finset.subset_insert _ _
  | cons o rest ih =>
    refine (ih _).trans ?_
    rw [show insert c.thisId (st.1.visible p)
        = insert c.thisId (insert c.thisId (st.1.visible p)) from (Finset.insert_idem _ _).symm]
    exact Finset.insert_subset_insert _ (visDynStep_visible_le c st o p)

theorem visFold_visible_new (l : List ℕ) (st : VisState × Finset ℕ) (q : ℕ) :
    c.thisId ∈ (List.foldl (visDynStep c) st l).1.visible q →
      c.thisId ∈ st.1.visible q ∨
        c.thisId ∈ (List.foldl (visDynStep c) st l).1.fullDirty q := by
  induction l generalizing st with
  | nil => exact fun h => Or.inl h
  | cons o rest ih =>
    intro hv
    rcases ih (visDynStep c st o) hv with h' | h'
    · rcases visDynStep_visible_new c st o q h' with h'' | h''
      · exact Or.inl h''
      · exact Or.inr (visFold_fullDirty_mono c rest _ q h'')
    · exact Or.inr h'

theorem visFold_sym_inv (l : List ℕ) (st : VisState × Finset ℕ) (q : ℕ)
    (hprev : c.thisId ∈ st.1.visible q → c.thisId ∈ st.1.fullDirty q) :
    c.thisId ∈ (List.foldl (visDynStep c) st l).1.visible q →
      c.thisId ∈ (List.foldl (visDynStep c) st l).1.fullDirty q := by
  intro hv
  rcases visFold_visible_new c l st q hv with h' | h'
  · exact visFold_fullDirty_mono c l st q (hprev h')
  · exact h'

theorem visFold_sym_est (l : List ℕ) (st : VisState × Finset ℕ) (q : ℕ)
    (hq : q ∈ l) (hdead : c.dead = false) (hp : c.isPlayer q = true) (hw : c.inWindow q)
    (hprev : c.thisId ∈ st.1.visible q → c.thisId ∈ st.1.fullDirty q) :
    c.thisId ∈ (List.foldl (visDynStep c) st l).1.visible q ∧
      c.thisId ∈ (List.foldl (visDynStep c) st l).1.fullDirty q := by
  induction l generalizing st with
  | nil => cases hq
  | cons o rest ih =>
    rcases List.mem_cons.mp hq with he | hm
    · subst he
      have hest := visDynStep_sym_est c st q hdead hp hw hprev
      exact ⟨visFold_visible_mono c rest _ q hest.1,
        visFold_fullDirty_mono c rest _ q hest.2⟩
    · have hprev' : c.thisId ∈ (visDynStep c st o).1.visible q →
          c.thisId ∈ (visDynStep c st o).1.fullDirty q := by
        intro hv
        rcases visDynStep_visible_new c st o q hv with h' | h'
        · exact visDynStep_fullDirty_mono c st o q (hprev h')
        · exact h'
      exact ih _ hm hprev'

end VisLemmas

theorem updateVisibleObjects_visible (c : VisCtx) (dyn : List ℕ) (base : Finset ℕ)
    (w : VisState) (p : ℕ) :
    (updateVisibleObjects c dyn base w).visible p
      = if p = c.thisId then (List.foldl (visDynStep c) (w, base) dyn).2
        else (List.foldl (visDynStep c) (w, base) dyn).1.visible p := by
  simp [updateVisibleObjects, Function.update_apply]

theorem updateVisibleObjects_fullDirty (c : VisCtx) (dyn : List ℕ) (base : Finset ℕ)
    (w : VisState) (p : ℕ) :
    (updateVisibleObjects c dyn base w).fullDirty p
      = if p = c.thisId then
          (List.foldl (visDynStep c) (w, base) dyn).1.fullDirty c.thisId ∪
            ((List.foldl (visDynStep c) (w, base) dyn).2).filter
              (fun o => o ∉ (List.foldl (visDynStep c) (w, base) dyn).1.visible c.thisId)
        else (List.foldl (visDynStep c) (w, base) dyn).1.fullDirty p := by
  simp [updateVisibleObjects, Function.update_apply]

theorem updateVisibleObjects_deleted_self (c : VisCtx) (dyn : List ℕ) (base : Finset ℕ)
    (w : VisState) :
    (updateVisibleObjects c dyn base w).deleted c.thisId
      = (List.foldl (visDynStep c) (w, base) dyn).1.deleted c.thisId ∪
          ((List.foldl (visDynStep c) (w, base) dyn).1.visible c.thisId).filter
            (fun o => o ∉ (List.foldl (visDynStep c) (w, base) dyn).2) := by
  simp [updateVisibleObjects, Function.update_apply]

/-- C6: after `updateVisibleObjects`, (1) every object of the new
visible set that was not previously visible is in this player's
full-dirty set, (2) every previously visible object that left the
visible set is in this player's deleted set, and (3) every other
dynamic player inside this (living) player's cull window who did not
previously see this player now has this player in their own visible and
full-dirty sets (symmetric visibility). -/
theorem spec_c6_visibility_update :
    ∀ (c : VisCtx) (dynamicObjects : List ℕ) (staticBase : Finset ℕ) (w : VisState),
      (∀ o, o ∈ (updateVisibleObjects c dynamicObjects staticBase w).visible c.thisId →
          o ∉ w.visible c.thisId →
          o ∈ (updateVisibleObjects c dynamicObjects staticBase w).fullDirty c.thisId) ∧
      (∀ o, o ∈ w.visible c.thisId →
          o ∉ (updateVisibleObjects c dynamicObjects staticBase w).visible c.thisId →
          o ∈ (updateVisibleObjects c dynamicObjects staticBase w).deleted c.thisId) ∧
      (∀ q, q ∈ dynamicObjects → q ≠ c.thisId → c.dead = false → c.isPlayer q = true →
          c.inWindow q → c.thisId ∉ w.visible q →
          c.thisId ∈ (updateVisibleObjects c dynamicObjects staticBase w).visible q ∧
          c.thisId ∈ (updateVisibleObjects c dynamicObjects staticBase w).fullDirty q) := by
  intro c dyn base w
  refine ⟨?_, ?_, ?_⟩
  · intro o hv hnew
    rw [updateVisibleObjects_visible, if_pos rfl] at hv
    rw [updateVisibleObjects_fullDirty, if_pos rfl]
    by_cases hw1 : o ∈ (List.foldl (visDynStep c) (w, base) dyn).1.visible c.thisId
    · have hle := visFold_visible_le c dyn (w, base) c.thisId hw1
      rcases Finset.mem_insert.mp hle with he | hm
      · subst he
        rcases visFold_visible_new c dyn (w, base) c.thisId hw1 with h' | h'
        · exact absurd h' hnew
        · exact Finset.mem_union_left _ h'
      · exact absurd hm hnew
    · exact Finset.mem_union_right _ (Finset.mem_filter.mpr ⟨hv, hw1⟩)
  · intro o hvis hnot
    rw [updateVisibleObjects_visible, if_pos rfl] at hnot
    rw [updateVisibleObjects_deleted_self]
    refine Finset.mem_union_right _ (Finset.mem_filter.mpr ⟨?_, hnot⟩)
    exact visFold_visible_mono c dyn (w, base) c.thisId hvis
  · intro q hq hne hdead hp hw hnv
    have hest := visFold_sym_est c dyn (w, base) q hq hdead hp hw (fun h => absurd h hnv)
    constructor
    · rw [updateVisibleObjects_visible, if_neg hne]
      exact hest.1
    · rw [updateVisibleObjects_fullDirty, if_neg hne]
      exact hest.2

/-- C6 witness: a two-player world in which player 1 sits inside player
0's cull window and did not previously see player 0; after player 0's
visibility update, player 0 is in player 1's visible and full-dirty
sets. -/
theorem spec_c6_witness :
    ((1:ℕ) ∈ [1] ∧ (1:ℕ) ≠ 0 ∧
      (⟨0, false, 0, 0, 10, 10, fun _ => true, fun _ => 0, fun _ => 0⟩ : VisCtx).dead = false ∧
      (⟨0, false, 0, 0, 10, 10, fun _ => true, fun _ => 0, fun _ => 0⟩ : VisCtx).isPlayer 1 = true ∧
      (⟨0, false, 0, 0, 10, 10, fun _ => true, fun _ => 0, fun _ => 0⟩ : VisCtx).inWindow 1 ∧
      (0:ℕ) ∉ (VisState.mk (fun _ => ∅) (fun _ => ∅) (fun _ => ∅)).visible 1) ∧
    ((0:ℕ) ∈ (updateVisibleObjects
        ⟨0, false, 0, 0, 10, 10, fun _ => true, fun _ => 0, fun _ => 0⟩ [1] ∅
        (VisState.mk (fun _ => ∅) (fun _ => ∅) (fun _ => ∅))).visible 1 ∧
      (0:ℕ) ∈ (updateVisibleObjects
        ⟨0, false, 0, 0, 10, 10, fun _ => true, fun _ => 0, fun _ => 0⟩ [1] ∅
        (VisState.mk (fun _ => ∅) (fun _ => ∅) (fun _ => ∅))).fullDirty 1) :=
  ⟨⟨by simp, by decide, rfl, rfl, by norm_num [VisCtx.inWindow], by simp⟩,
    (spec_c6_visibility_update
        ⟨0, false, 0, 0, 10, 10, fun _ => true, fun _ => 0, fun _ => 0⟩ [1] ∅
        (VisState.mk (fun _ => ∅) (fun _ => ∅) (fun _ => ∅))).2.2 1
      (by simp) (by decide) rfl rfl (by norm_num [VisCtx.inWindow]) (by simp)⟩

/-! ## Claim C8: gas radius monotonicity -/

theorem lerp_le_start (s f p : ℚ) (h : f ≤ s) (hp : 0 ≤ p) : lerp s f p ≤ s := by
  unfold lerp
  nlinarith

theorem lerp_ge_finish (s f p : ℚ) (h : f ≤ s) (hp : p ≤ 1) : f ≤ lerp s f p := by
  unfold lerp
  nlinarith

theorem lerp_anti (s f p q : ℚ) (h : f ≤ s) (hpq : p ≤ q) :
    lerp s f q ≤ lerp s f p := by
  unfold lerp
  nlinarith

theorem gasStages_radii (st : GasStage) (h : st ∈ GasStages) :
    st.newRadius ≤ st.oldRadius := by
  fin_cases h <;> norm_num

theorem gasStages_duration (st : GasStage) (h : st ∈ GasStages)
    (ha : st.state = GasState.Advancing) : 0 < st.duration := by
  fin_cases h <;> simp_all

theorem gasStages_consecutive (i : ℕ) (a b : GasStage)
    (h1 : GasStages.get? i = some a) (h2 : GasStages.get? (i + 1) = some b) :
    b.oldRadius ≤ (if a.state = GasState.Advancing then a.newRadius else a.oldRadius) := by
  rcases i with _|_|_|_|_|_|_|_|_|i <;>
    simp only [GasStages, List.get?] at h1 h2 <;>
    (try cases h1) <;> (try cases h2) <;>
    simp

theorem gasInv_init : GasInv initialGas 0 := by
  refine ⟨⟨⟨.Inactive, 0, 512, 512, 0⟩, rfl, rfl, rfl, rfl, rfl⟩,
    le_refl _, le_refl _, ?_, fun _ => le_refl _⟩
  intro h
  simp [initialGas] at h

theorem gasTick_inactive (g : Gas) (t : ℚ) (d : Bool)
    (h : g.state = GasState.Inactive) : Game.gasTick g t d = g := by
  simp [Game.gasTick, h]

theorem gasTick_waiting (g : Gas) (t : ℚ) (d : Bool)
    (h : g.state = GasState.Waiting) :
    Game.gasTick g t d =
      { g with percentage := (t - g.countdownStart) / (1000 * g.initialDuration) } := by
  simp [Game.gasTick, h]

theorem gasTick_advancing_skip (g : Gas) (t : ℚ)
    (h : g.state = GasState.Advancing) :
    Game.gasTick g t false =
      { g with percentage := (t - g.countdownStart) / (1000 * g.initialDuration) } := by
  simp [Game.gasTick, h]

theorem gasTick_advancing_damage (g : Gas) (t : ℚ)
    (h : g.state = GasState.Advancing) :
    Game.gasTick g t true =
      { g with
          percentage := (t - g.countdownStart) / (1000 * g.initialDuration),
          currentPosition := vecLerp g.oldPosition g.newPosition
            ((t - g.countdownStart) / (1000 * g.initialDuration)),
          currentRadius := lerp g.oldRadius g.newRadius
            ((t - g.countdownStart) / (1000 * g.initialDuration)) } := by
  simp [Game.gasTick, h]

theorem gasTick_preserves (g : Gas) (t0 t : ℚ) (d : Bool) (hInv : GasInv g t0)
    (ht : t0 ≤ t)
    (hdl : g.state = GasState.Advancing → t ≤ g.countdownStart + 1000 * g.initialDuration) :
    GasInv (Game.gasTick g t d) t ∧ (Game.gasTick g t d).currentRadius ≤ g.currentRadius := by
  obtain ⟨hst, hro, hrc, hadv, hnadv⟩ := hInv
  cases hGS : g.state with
  | Inactive =>
    rw [gasTick_inactive g t d hGS]
    refine ⟨⟨hst, hro, hrc, ?_, ?_⟩, le_refl _⟩
    · intro h
      rw [hGS] at h
      cases h
    · intro _
      exact hnadv (by simp [hGS])
  | Waiting =>
    rw [gasTick_waiting g t d hGS]
    refine ⟨⟨hst, hro, hrc, ?_, ?_⟩, le_refl _⟩
    · intro h
      simp [hGS] at h
    · intro _
      exact hnadv (by simp [hGS])
  | Advancing =>
    obtain ⟨hcs, hdur, hlerp⟩ := hadv hGS
    have hdead := hdl hGS
    have hden : (0:ℚ) < 1000 * g.initialDuration := by linarith
    have hp01 : (t0 - g.countdownStart) / (1000 * g.initialDuration)
        ≤ (t - g.countdownStart) / (1000 * g.initialDuration) := by
      rw [div_eq_mul_inv, div_eq_mul_inv]
      exact mul_le_mul_of_nonneg_right (by linarith) (inv_nonneg.mpr hden.le)
    have hp1le : (t - g.countdownStart) / (1000 * g.initialDuration) ≤ 1 := by
      rw [div_le_one hden]
      linarith
    have hkey : lerp g.oldRadius g.newRadius
        ((t - g.countdownStart) / (1000 * g.initialDuration)) ≤ g.currentRadius :=
      le_trans (lerp_anti _ _ _ _ hro hp01) hlerp
    cases d with
    | false =>
      rw [gasTick_advancing_skip g t hGS]
      refine ⟨⟨hst, hro, hrc, ?_, ?_⟩, le_refl _⟩
      · intro _
        exact ⟨le_trans hcs ht, hdur, hkey⟩
      · intro h
        exact absurd hGS h
    | true =>
      rw [gasTick_advancing_damage g t hGS]
      refine ⟨⟨hst, hro, ?_, ?_, ?_⟩, hkey⟩
      · exact lerp_ge_finish _ _ _ hro hp1le
      · intro _
        exact ⟨le_trans hcs ht, hdur, le_refl _⟩
      · intro h
        exact absurd hGS h

theorem advanceGas_none (g : Gas) (t : ℚ) (r : Vec2 ℚ)
    (h : GasStages.get? (g.stage + 1) = none) : Game.advanceGas g t r = g := by
  unfold Game.advanceGas
  rw [h]

theorem advanceGas_waiting (g : Gas) (t : ℚ) (r : Vec2 ℚ) (st : GasStage)
    (h : GasStages.get? (g.stage + 1) = some st) (hw : st.state = GasState.Waiting) :
    Game.advanceGas g t r = { g with
      stage := g.stage + 1, state := st.state, initialDuration := st.duration,
      percentage := 1, countdownStart := t,
      oldPosition := g.newPosition,
      newPosition := if st.newRadius ≠ 0 then r else g.newPosition,
      currentPosition := g.newPosition,
      currentRadius := st.oldRadius,
      oldRadius := st.oldRadius, newRadius := st.newRadius, dps := st.dps } := by
  unfold Game.advanceGas
  rw [h]
  simp [hw]

theorem advanceGas_nonwaiting (g : Gas) (t : ℚ) (r : Vec2 ℚ) (st : GasStage)
    (h : GasStages.get? (g.stage + 1) = some st) (hw : st.state ≠ GasState.Waiting) :
    Game.advanceGas g t r = { g with
      stage := g.stage + 1, state := st.state, initialDuration := st.duration,
      percentage := 1, countdownStart := t,
      oldRadius := st.oldRadius, newRadius := st.newRadius, dps := st.dps } := by
  unfold Game.advanceGas
  rw [h]
  simp [hw]

theorem advanceGas_preserves (g : Gas) (t0 t : ℚ) (r : Vec2 ℚ) (hInv : GasInv g t0)
    (ht : t0 ≤ t)
    (hdl : g.state = GasState.Advancing → t ≤ g.countdownStart + 1000 * g.initialDuration) :
    GasInv (Game.advanceGas g t r) t ∧
      (Game.advanceGas g t r).currentRadius ≤ g.currentRadius := by
  obtain ⟨⟨stc, hget, ho, hn, hs, hdur0⟩, hro, hrc, hadv, hnadv⟩ := hInv
  cases hnext : GasStages.get? (g.stage + 1) with
  | none =>
    rw [advanceGas_none g t r hnext]
    refine ⟨⟨⟨stc, hget, ho, hn, hs, hdur0⟩, hro, hrc, ?_, hnadv⟩, le_refl _⟩
    intro hA
    obtain ⟨hcs, hdur, hlerp⟩ := hadv hA
    have hdead := hdl hA
    have hden : (0:ℚ) < 1000 * g.initialDuration := by linarith
    have hp01 : (t0 - g.countdownStart) / (1000 * g.initialDuration)
        ≤ (t - g.countdownStart) / (1000 * g.initialDuration) := by
      rw [div_eq_mul_inv, div_eq_mul_inv]
      exact mul_le_mul_of_nonneg_right (by linarith) (inv_nonneg.mpr hden.le)
    exact ⟨le_trans hcs ht, hdur, le_trans (lerp_anti _ _ _ _ hro hp01) hlerp⟩
  | some st =>
    have hmem : st ∈ GasStages := List.get?_mem hnext
    have hstnew : st.newRadius ≤ st.oldRadius := gasStages_radii st hmem
    have hchain : st.oldRadius ≤ g.currentRadius := by
      have hcons := gasStages_consecutive g.stage stc st hget hnext
      by_cases hAdv : g.state = GasState.Advancing
      · rw [hs] at hAdv
        rw [if_pos hAdv] at hcons
        calc st.oldRadius ≤ stc.newRadius := hcons
          _ = g.newRadius := hn.symm
          _ ≤ g.currentRadius := hrc
      · have hne : stc.state ≠ GasState.Advancing := by
          rw [← hs]
          exact hAdv
        rw [if_neg hne] at hcons
        calc st.oldRadius ≤ stc.oldRadius := hcons
          _ = g.oldRadius := ho.symm
          _ ≤ g.currentRadius := hnadv hAdv
    by_cases hw : st.state = GasState.Waiting
    · rw [advanceGas_waiting g t r st hnext hw]
      refine ⟨⟨⟨st, hnext, rfl, rfl, rfl, rfl⟩, hstnew, hstnew, ?_, ?_⟩, hchain⟩
      · intro hA
        simp [hw] at hA
      · intro _
        exact le_refl _
    · rw [advanceGas_nonwaiting g t r st hnext hw]
      have hnewle : st.newRadius ≤ g.currentRadius := le_trans hstnew hchain
      refine ⟨⟨⟨st, hnext, rfl, rfl, rfl, rfl⟩, hstnew, hnewle, ?_, ?_⟩, le_refl _⟩
      · intro hA
        have hstAdv : st.state = GasState.Advancing := hA
        refine ⟨le_refl t, gasStages_duration st hmem hstAdv, ?_⟩
        show lerp st.oldRadius st.newRadius ((t - t) / (1000 * st.duration)) ≤ g.currentRadius
        have hz : (t - t) / (1000 * st.duration) = 0 := by
          simp
        rw [hz]
        have hl0 : lerp st.oldRadius st.newRadius 0 = st.oldRadius := by
          unfold lerp
          ring
        rw [hl0]
        exact hchain
      · intro _
        exact hchain

theorem gasRun_inv (evs : List GasEvent) : ∀ (g : Gas) (t0 : ℚ),
    GasInv g t0 → GasEvent.validTrace g t0 evs = true →
    GasInv (Game.gasRunT g t0 evs).1 (Game.gasRunT g t0 evs).2 ∧
      (Game.gasRunT g t0 evs).1.currentRadius ≤ g.currentRadius := by
  induction evs with
  | nil =>
    intro g t0 hInv _
    exact ⟨hInv, le_refl _⟩
  | cons e rest ih =>
    intro g t0 hInv hv
    cases e with
    | advance t r =>
      simp only [GasEvent.validTrace, Bool.and_eq_true, Bool.or_eq_true,
        decide_eq_true_eq] at hv
      obtain ⟨⟨ht, hor⟩, hrest⟩ := hv
      have hdl : g.state = GasState.Advancing →
          t ≤ g.countdownStart + 1000 * g.initialDuration := by
        intro hA
        rcases hor with h | h
        · exact absurd hA h
        · exact h
      obtain ⟨hInv1, hdec1⟩ := advanceGas_preserves g t0 t r hInv ht hdl
      obtain ⟨hInv2, hdec2⟩ := ih (Game.advanceGas g t r) t hInv1 hrest
      simp only [Game.gasRunT]
      exact ⟨hInv2, le_trans hdec2 hdec1⟩
    | tick t d =>
      simp only [GasEvent.validTrace, Bool.and_eq_true, Bool.or_eq_true,
        decide_eq_true_eq] at hv
      obtain ⟨⟨ht, hor⟩, hrest⟩ := hv
      have hdl : g.state = GasState.Advancing →
          t ≤ g.countdownStart + 1000 * g.initialDuration := by
        intro hA
        rcases hor with h | h
        · exact absurd hA h
        · exact h
      obtain ⟨hInv1, hdec1⟩ := gasTick_preserves g t0 t d hInv ht hdl
      obtain ⟨hInv2, hdec2⟩ := ih (Game.gasTick g t d) t hInv1 hrest
      simp only [Game.gasRunT]
      exact ⟨hInv2, le_trans hdec2 hdec1⟩

theorem gasRunT_append (l1 l2 : List GasEvent) : ∀ (g : Gas) (t0 : ℚ),
    Game.gasRunT g t0 (l1 ++ l2)
      = Game.gasRunT (Game.gasRunT g t0 l1).1 (Game.gasRunT g t0 l1).2 l2 := by
  induction l1 with
  | nil =>
    intro g t0
    rfl
  | cons e rest ih =>
    intro g t0
    cases e with
    | advance t r =>
      simp only [List.cons_append, Game.gasRunT]
      exact ih _ _
    | tick t d =>
      simp only [List.cons_append, Game.gasRunT]
      exact ih _ _

theorem validTrace_append (l1 l2 : List GasEvent) : ∀ (g : Gas) (t0 : ℚ),
    GasEvent.validTrace g t0 (l1 ++ l2) = true →
    GasEvent.validTrace g t0 l1 = true ∧
      GasEvent.validTrace (Game.gasRunT g t0 l1).1 (Game.gasRunT g t0 l1).2 l2 = true := by
  induction l1 with
  | nil =>
    intro g t0 h
    exact ⟨rfl, h⟩
  | cons e rest ih =>
    intro g t0 h
    cases e with
    | advance t r =>
      simp only [List.cons_append, GasEvent.validTrace, Game.gasRunT,
        Bool.and_eq_true] at h ⊢
      obtain ⟨hh, htl⟩ := h
      obtain ⟨h1, h2⟩ := ih _ _ htl
      exact ⟨⟨hh, h1⟩, h2⟩
    | tick t d =>
      simp only [List.cons_append, GasEvent.validTrace, Game.gasRunT,
        Bool.and_eq_true] at h ⊢
      obtain ⟨hh, htl⟩ := h
      obtain ⟨h1, h2⟩ := ih _ _ htl
      exact ⟨⟨hh, h1⟩, h2⟩

/-- C8: the gas safe-zone radius is monotonically non-increasing: along
any valid sequence of `advanceGas()` calls and per-tick gas
interpolation updates starting from the initial gas (clocks
non-decreasing, no event after the pending advancing stage's deadline),
appending one more event never increases `currentRadius`. -/
theorem spec_c8_gas_monotone (evs : List GasEvent) (e : GasEvent)
    (hv : GasEvent.validTrace initialGas 0 (evs ++ [e]) = true) :
    (Game.gasRunT initialGas 0 (evs ++ [e])).1.currentRadius
      ≤ (Game.gasRunT initialGas 0 evs).1.currentRadius := by
  obtain ⟨h1, h2⟩ := validTrace_append evs [e] initialGas 0 hv
  have hInv := (gasRun_inv evs initialGas 0 gasInv_init h1).1
  rw [gasRunT_append evs [e] initialGas 0]
  exact (gasRun_inv [e] _ _ hInv h2).2

theorem spec_c8_witness :
    GasEvent.validTrace initialGas 0 ([] ++ [GasEvent.tick 5 false]) = true ∧
    (Game.gasRunT initialGas 0 ([] ++ [GasEvent.tick 5 false])).1.currentRadius
      ≤ (Game.gasRunT initialGas 0 []).1.currentRadius :=
  ⟨by
    norm_num [GasEvent.validTrace, initialGas]
    decide,
   spec_c8_gas_monotone [] (GasEvent.tick 5 false)
     (by
       norm_num [GasEvent.validTrace, initialGas]
       decide)⟩
